
import Mathlib

/-!
Shallow embedding of the event-distribution and run-orchestration core of the
repository (src/app/core/event_bus.py, src/app/core/tools.py,
src/app/core/runner.py, src/app/agents/langgraph_agent.py), together with
theorems settling the claims about it.

Modelling conventions:
* Python is single-process cooperative (asyncio); tasks switch only at true
  suspension points, and every critical section of the bus and runner is
  synchronous between such points, so the code is embedded as sequential
  functions on explicit state.
* Machine integers are modelled as `Nat`/`Int` (no overflow is reachable in
  the source paths concerned).
* A Python call that may raise is modelled with `Except String`; the payload
  is the stringified exception.
* JSON-ish payloads (`Dict[str, Any]`) are modelled by the `JVal` type below;
  tool arguments, which the core never interprets beyond dictionary lookups
  on string values, are modelled as string-valued dictionaries.
-/

/-- JSON-like value used for event data payloads. -/
inductive JVal where
  | s : String → JVal
  | n : Nat → JVal
  | b : Bool → JVal
  | null : JVal
  | arr : List JVal → JVal
  | obj : List (String × JVal) → JVal
deriving Repr

/-- Tool argument dictionaries (`Dict[str, Any]` restricted to the string
values the core actually passes around). -/
abbrev Args := List (String × String)

/-! ## src/app/core/tools.py -/

/-- The `ToolCall` dataclass. -/
structure ToolCall where
  id : String
  name : String
  args : Args
deriving Repr

/-- The `ToolDecision` dataclass (`decision` is `"approve"` or `"reject"`). -/
structure ToolDecision where
  call_id : String
  decision : String
  reason : Option String := none
deriving Repr

/-- The `ToolResult` dataclass. -/
structure ToolResult where
  call_id : String
  ok : Bool
  output : String
deriving Repr

/-- Outcome of a tool's own `run` coroutine: either a returned output string,
or a raised exception with its type name and text. -/
inductive ToolOutcome where
  | ok : String → ToolOutcome
  | exc : String → String → ToolOutcome
deriving Repr

/-- The `Tool` protocol: a name, an approval flag, and a `run` behaviour
taking the working directory and the arguments. -/
structure Tool where
  name : String
  requires_approval : Bool
  run : String → Args → ToolOutcome

/-- Model of `EchoTool`: `run` returns `str(args.get("text", ""))`. -/
def echoTool : Tool :=
  ⟨"echo", false, fun _ args => .ok (((args.find? (fun p => p.1 = "text")).map (·.2)).getD "")⟩

/-- The `ToolRegistry`: a Python dict from name to tool (insertion-ordered
association list with unique keys). -/
structure ToolRegistry where
  tools : List (String × Tool)

namespace ToolRegistry

/-- Model of `ToolRegistry.get`. -/
def get (reg : ToolRegistry) (name : String) : Option Tool :=
  ((reg.tools.find? (fun p => p.1 = name)).map (·.2))

/-- Model of `ToolRegistry.filter_allowed`: a falsy allow-list (`None` or `[]`) returns
the registry itself; otherwise a fresh registry is built whose dict is the
original one restricted to the allowed names.  (The fresh `ToolRegistry()`
constructed by the source is populated with the default tools and then has
its `_tools` dict immediately overwritten by the filtered comprehension, so
only the filtered dict survives.) -/
def filter_allowed (reg : ToolRegistry) (allowed : Option (List String)) : ToolRegistry :=
  match allowed with
  | none => reg
  | some l => if l.isEmpty then reg else ⟨reg.tools.filter (fun p => p.1 ∈ l)⟩

/-- Model of `ToolRegistry.execute`: unknown tool and raised exceptions are encoded as
`ok := false` results; a successful `run` is wrapped with `ok := true`. -/
def execute (reg : ToolRegistry) (tool_call : ToolCall) (cwd : String) : ToolResult :=
  match reg.get tool_call.name with
  | none => ⟨tool_call.id, false, "Unknown tool: " ++ tool_call.name⟩
  | some tool =>
    match tool.run cwd tool_call.args with
    | .ok out => ⟨tool_call.id, true, out⟩
    | .exc ty msg => ⟨tool_call.id, false, ty ++ ": " ++ msg⟩

end ToolRegistry

/-! ## src/app/core/event_bus.py -/

abbrev Topic := String

/-- The `EventMeta` dataclass.  The source stores `id` as `str(event_id)` and always
compares it through `int(...)`, so the faithful carrier is the integer. -/
structure EventMeta where
  id : Nat
  ts_ms : Int
  source : String
  correlation_id : Option String
deriving Repr

/-- The `EventEnvelope` dataclass. -/
structure EventEnvelope where
  meta : EventMeta
  type : String
  data : JVal
deriving Repr

/-- A subscriber mailbox: `asyncio.Queue(maxsize)`.  `maxsize = 0` means
unbounded, as in asyncio. -/
structure Mailbox where
  maxsize : Nat
  items : List EventEnvelope
deriving Repr

/-- Model of `q.full()`: true iff the queue is bounded and at capacity. -/
def Mailbox.full (m : Mailbox) : Bool :=
  decide (0 < m.maxsize ∧ m.maxsize ≤ m.items.length)

/-- Model of `EventBus._put_drop_oldest`: when the queue is full the oldest element is
removed (`get_nowait`), then the new envelope is enqueued; if the queue is
somehow still full the newest is dropped. -/
def putDropOldest (q : Mailbox) (env : EventEnvelope) : Mailbox :=
  let q1 := if q.full then { q with items := q.items.tail } else q
  if q1.full then q1 else { q1 with items := q1.items ++ [env] }

/-- Model of `collections.deque(maxlen)` append: evicts from the front once over
capacity. -/
def dequeAppend (maxlen : Nat) (d : List EventEnvelope) (x : EventEnvelope) : List EventEnvelope :=
  let d2 := d ++ [x]
  d2.drop (d2.length - maxlen)

/-- The last `n` elements of a list. -/
def takeLastN (n : Nat) (l : List EventEnvelope) : List EventEnvelope :=
  l.drop (l.length - n)

/-- The whole `EventBus` state: per-topic sequence counters, per-topic bounded
history, per-topic subscriber lists (mailboxes named by the order of their
creation, modelling Python object identity), and the two configured sizes. -/
structure BusState where
  seq : Topic → Nat
  history : Topic → List EventEnvelope
  subs : Topic → List Nat
  mailboxes : Nat → Mailbox
  nextQ : Nat
  qsize : Nat
  hsize : Nat

namespace EventBus

/-- Model of `EventBus.__init__`. -/
def init (subscriber_queue_size history_size : Nat) : BusState :=
  ⟨fun _ => 0, fun _ => [], fun _ => [],
   fun _ => ⟨subscriber_queue_size, []⟩, 0, subscriber_queue_size, history_size⟩

/-- Arguments of one `publish` call.  `now` is the ambient wall clock used
when `ts_ms` is not supplied (`time.time() * 1000`). -/
structure PubArgs where
  type : String
  data : JVal
  source : String
  correlation_id : Option String := none
  ts_ms : Option Int := none
  now : Int := 0
deriving Repr

/-- The envelope produced for sequence id `eid`. -/
def mkEnv (eid : Nat) (a : PubArgs) : EventEnvelope :=
  ⟨⟨eid, a.ts_ms.getD a.now, a.source, a.correlation_id⟩, a.type, a.data⟩

/-- Fan-out: apply `_put_drop_oldest` to each registered mailbox in list
order. -/
def fanout (mbs : Nat → Mailbox) (queues : List Nat) (env : EventEnvelope) : Nat → Mailbox :=
  queues.foldl (fun f qid => fun i => if i = qid then putDropOldest (f qid) env else f i) mbs

/-- Model of `EventBus.publish`: assign the next id, build the envelope, append it to
the bounded history, then fan it out to the subscribers registered at that
moment.  Id assignment, history append and the subscriber snapshot happen
inside one lock, and the entire call is free of suspension points after the
lock, so the whole call is one atomic step. -/
def publish (s : BusState) (topic : Topic) (a : PubArgs) : BusState × EventEnvelope :=
  let eid := s.seq topic + 1
  let env := mkEnv eid a
  let hist := dequeAppend s.hsize (s.history topic) env
  ({ s with
      seq := fun t => if t = topic then eid else s.seq t,
      history := fun t => if t = topic then hist else s.history t,
      mailboxes := fanout s.mailboxes (s.subs topic) env }, env)

/-- Model of `EventBus.subscribe`: create a fresh mailbox, register it, compute the
replay snapshot (`id > since_id`) under the same lock, and enqueue the replay
into the new mailbox (source does this after the lock, but no other task can
run in between — there is no suspension point). -/
def subscribe (s : BusState) (topic : Topic) (since_id : Option Nat) (replay : Bool) :
    BusState × Nat :=
  let qid := s.nextQ
  let replay_events :=
    if replay then
      match since_id with
      | some k => (s.history topic).filter (fun e => decide (k < e.meta.id))
      | none => []
    else []
  let mb := replay_events.foldl putDropOldest ⟨s.qsize, []⟩
  ({ s with
      subs := fun t => if t = topic then s.subs t ++ [qid] else s.subs t,
      mailboxes := fun i => if i = qid then mb else s.mailboxes i,
      nextQ := s.nextQ + 1 }, qid)

/-- Model of `EventBus._unsubscribe`: remove the first occurrence of the queue from
the topic's subscriber list (`list.remove`; `ValueError` is swallowed). -/
def unsubscribe (s : BusState) (topic : Topic) (qid : Nat) : BusState :=
  { s with subs := fun t => if t = topic then (s.subs t).erase qid else s.subs t }

/-- A sequence of `publish` calls on one topic, collecting the returned
envelopes. -/
def pubMany (s : BusState) (topic : Topic) : List PubArgs → BusState × List EventEnvelope
  | [] => (s, [])
  | a :: rest =>
    let p := publish s topic a
    let r := pubMany p.1 topic rest
    (r.1, p.2 :: r.2)

/-- The envelopes a run of publishes produces when the topic counter starts
at `base`. -/
def mkEnvs (base : Nat) : List PubArgs → List EventEnvelope
  | [] => []
  | a :: rest => mkEnv (base + 1) a :: mkEnvs (base + 1) rest

/-- One bus API call, for interleaved traces. -/
inductive BusOp where
  | pub : Topic → PubArgs → BusOp
  | sub : Topic → Option Nat → Bool → BusOp
  | unsub : Topic → Nat → BusOp

/-- Run a trace of bus operations, collecting each published envelope with
its topic. -/
def runOps (s : BusState) : List BusOp → BusState × List (Topic × EventEnvelope)
  | [] => (s, [])
  | .pub t a :: rest =>
    let p := publish s t a
    let r := runOps p.1 rest
    (r.1, (t, p.2) :: r.2)
  | .sub t since rep :: rest => runOps (subscribe s t since rep).1 rest
  | .unsub t q :: rest => runOps (unsubscribe s t q) rest

/-- Number of publishes a trace performs on a topic. -/
def countPub (t : Topic) : List BusOp → Nat
  | [] => 0
  | .pub t2 _ :: rest => (if t2 = t then 1 else 0) + countPub t rest
  | .sub _ _ _ :: rest => countPub t rest
  | .unsub _ _ :: rest => countPub t rest

end EventBus

/-! ## src/app/agents/langgraph_agent.py -/

/-- The `AgentState` record (`messages` entries are role/content pairs). -/
structure AgentState where
  messages : List (String × String)
  pending_tools : Option (List ToolCall) := none
  final : Option String := none

/-- The four Azure environment values, when all are configured. -/
structure AzureCfg where
  endpoint : String
  api_key : String
  deployment : String
  api_version : String

/-- Normalised result of `_call_azure_chat`: either a list of `(name, args)`
tool calls or a plain text content. -/
inductive LlmOut where
  | toolCalls : List (String × Args) → LlmOut
  | content : String → LlmOut

/-- Truthiness of the `allowed_tools` optional list. -/
def allowedTruthy : Option (List String) → Bool
  | none => false
  | some l => !l.isEmpty

/-- The final message produced for a disallowed tool proposal. -/
def disallowedMsg (name : String) (allowed : List String) : String :=
  "Tool '" ++ name ++ "' is not allowed. Allowed tools: " ++
    String.intercalate ", " allowed ++ ".\nPlease rephrase or allow this tool."

/-- The loop over `out["tool_calls"]`: each call is checked against the
allow-list (only when the list is truthy) and, if allowed, turned into a
`ToolCall` with a fresh uuid (modelled by the stream `ids`); the first
disallowed name aborts the loop. -/
def azureCollect (allowed : Option (List String)) (ids : Nat → String) :
    Nat → List (String × Args) → Except String (List ToolCall)
  | _, [] => .ok []
  | i, (nm, args) :: rest =>
    if allowedTruthy allowed ∧ ¬ nm ∈ allowed.getD [] then .error nm
    else (azureCollect allowed ids (i + 1) rest).map (fun ps => ⟨ids i, nm, args⟩ :: ps)

/-- Python `str.strip()` on the ASCII-whitespace inputs the fallback
handles: drop leading and trailing whitespace.  (Defined structurally over
the character list so that concrete runs evaluate by `rfl`.) -/
def pyStrip (s : String) : String :=
  String.mk (((s.toList.dropWhile (fun c => c.isWhitespace)).reverse.dropWhile
    (fun c => c.isWhitespace)).reverse)

/-- Scan for the first `"::"`; returns the (colon-free) characters before it
and the characters after it.  Fails if the first colon encountered is not
doubled (the regex piece `[^:]+::` cannot cross a single colon). -/
def findDoubleColon : List Char → Option (List Char × List Char)
  | [] => none
  | c :: rest =>
    if c = ':' then
      match rest with
      | c2 :: rest2 => if c2 = ':' then some ([], rest2) else none
      | [] => none
    else (findDoubleColon rest).map (fun p => (c :: p.1, p.2))

/-- Model of `re.match(r"^write\s+(?P<path>[^:]+)::(?P<content>[\s\S]*)$", s)`
for the stripped, newline-free inputs the fallback receives; returns the two
groups.  The branch where the whole pre-`::` segment is whitespace models the
regex backtracking that shrinks `\s+` to leave one character for `[^:]+`. -/
def matchWrite (s : String) : Option (String × String) :=
  let cs := s.toList
  if cs.take 5 ≠ String.toList "write" then none
  else
    match findDoubleColon (cs.drop 5) with
    | none => none
    | some (pre, content) =>
      let w := pre.takeWhile (fun c => c.isWhitespace)
      if w.isEmpty then none
      else
        let p := pre.drop w.length
        if p.isEmpty then
          if 2 ≤ pre.length then some (String.mk (pre.drop (w.length - 1)), String.mk content)
          else none
        else some (String.mk p, String.mk content)

/-- Model of `re.match(r"^read\s+(?P<path>.+)$", s)` for stripped,
newline-free inputs. -/
def matchRead (s : String) : Option String :=
  let cs := s.toList
  if cs.take 4 ≠ String.toList "read" then none
  else
    let r := cs.drop 4
    let w := r.takeWhile (fun c => c.isWhitespace)
    if w.isEmpty then none
    else
      let p := r.drop w.length
      if p.isEmpty then
        if 2 ≤ r.length then some (String.mk (r.drop (w.length - 1))) else none
      else some (String.mk p)

/-- The regex demo fallback used when the Azure environment is not
configured.  Note it never consults `allowed_tools`. -/
def fallbackAgent (user_text : String) (ids : Nat → String) : AgentState :=
  let base : AgentState := { messages := [("user", user_text)] }
  let t := pyStrip user_text
  match matchWrite t with
  | some pc =>
    let wcall : ToolCall := ⟨ids 0, "write_file", [("path", pyStrip pc.1), ("content", pc.2)]⟩
    { base with pending_tools := some [wcall] }
  | none =>
    match matchRead t with
    | some path =>
      { base with pending_tools := some [⟨ids 0, "read_file", [("path", pyStrip path)]⟩] }
    | none => { base with final := some ("Echo: " ++ user_text) }

/-- Model of `run_agent_once`.  `cfg` is the Azure configuration (`none` selects the
fallback path), `llm` the outcome of `_call_azure_chat` (exception or
normalised output; it is consulted only on the Azure path), and `ids` the
uuid4 stream for `_make_tool_call`. -/
def run_agent_once (cfg : Option AzureCfg) (llm : Except String LlmOut) (ids : Nat → String)
    (user_text cwd : String) (allowed_tools : Option (List String)) : AgentState :=
  let base : AgentState := { messages := [("user", user_text)] }
  match cfg with
  | none => fallbackAgent user_text ids
  | some _ =>
    match llm with
    | .error e => { base with final := some ("LLM error: " ++ e) }
    | .ok (.toolCalls tcs) =>
      match azureCollect allowed_tools ids 0 tcs with
      | .error nm => { base with final := some (disallowedMsg nm (allowed_tools.getD [])) }
      | .ok [] => { base with final := some "I have no output." }
      | .ok pending => { base with pending_tools := some pending }
    | .ok (.content c) =>
      let c2 := pyStrip c
      { base with final := some (if c2.isEmpty then "I have no output." else c2) }

/-! ## src/app/core/runner.py -/

/-- One observable side effect of a run: a status write
(`store.update_run_status`), a stored message (`store.add_message`), a stored
event row (`store.add_event`) or a bus publication (`bus.publish`). -/
inductive Effect where
  | statusWrite : String → Effect
  | storeMessage : String → String → Effect
  | storeEvent : String → Effect
  | published : String → JVal → Effect
deriving Repr

/-- How a modelled call can fail to return: a raised exception (with its
stringified text) or an await that never completes (an empty decision queue
with calls still pending). -/
inductive Fail where
  | exc : String → Fail
  | blocked : Fail
deriving Repr

/-- Effects performed so far, plus whether the computation failed. -/
abbrev ERes := List Effect × Option Fail

/-- Sequencing: run `b` only if `a` succeeded, keeping the effects `a`
already performed either way. -/
def eseq (a b : ERes) : ERes :=
  match a.2 with
  | none => (a.1 ++ b.1, b.2)
  | some f => (a.1, some f)

/-- The behaviour of the runner's external collaborators.  `agentStep n` is
the outcome of the `run_agent_once` call made at step `n`; the store and bus
entries give the outcome of each call (the store/bus outcome may depend on
status text / event type; payload dependence is not needed by any claim). -/
structure Env where
  agentStep : Nat → Except String AgentState
  storeStatus : String → Except String Unit
  storeMessage : String → String → Except String Unit
  storeEvent : String → Except String Unit
  busPublish : String → Except String Unit

/-- Model of `store.update_run_status`. -/
def statE (env : Env) (s : String) : ERes :=
  match env.storeStatus s with
  | .ok _ => ([.statusWrite s], none)
  | .error e => ([], some (.exc e))

/-- Model of `SessionRunner._emit`: persist the event row first, then publish on the
bus. -/
def emitE (env : Env) (ty : String) (d : JVal) : ERes :=
  match env.storeEvent ty with
  | .error e => ([], some (.exc e))
  | .ok _ =>
    match env.busPublish ty with
    | .error e => ([.storeEvent ty], some (.exc e))
    | .ok _ => ([.storeEvent ty, .published ty d], none)

/-- Model of `store.add_message`. -/
def addMsgE (env : Env) (role text : String) : ERes :=
  match env.storeMessage role text with
  | .ok _ => ([.storeMessage role text], none)
  | .error e => ([], some (.exc e))

/-- Optional string to JSON value. -/
def jOptStr : Option String → JVal
  | some s => .s s
  | none => .null

/-- The `tool.result` event payload. -/
def toolResultData (call : ToolCall) (r : ToolResult) : JVal :=
  .obj [("tool_id", .s call.id), ("name", .s call.name), ("ok", .b r.ok), ("output", .s r.output)]

/-- Model of `SessionRunner._execute_tool`: run the (never-raising) registry execute,
then emit `tool.result`. -/
def execToolE (env : Env) (reg : ToolRegistry) (cwd : String) (call : ToolCall) : ERes :=
  emitE env "tool.result" (toolResultData call (reg.execute call cwd))

/-- Model of `for call in pending_tools: await self._execute_tool(call)`. -/
def eforExec (env : Env) (reg : ToolRegistry) (cwd : String) : List ToolCall → ERes
  | [] => ([], none)
  | c :: rest => eseq (execToolE env reg cwd c) (eforExec env reg cwd rest)

/-- Python dict lookup on the pending map. -/
def dictGet (m : List (String × ToolCall)) (k : String) : Option ToolCall :=
  ((m.find? (fun p => p.1 = k)).map (·.2))

/-- Python dict assignment `m[k] = v` (keys stay unique: replace in place or
append). -/
def dictSet (m : List (String × ToolCall)) (k : String) (v : ToolCall) :
    List (String × ToolCall) :=
  if m.any (fun p => p.1 = k) then m.map (fun p => if p.1 = k then (k, v) else p)
  else m ++ [(k, v)]

/-- Python dict `m.pop(k, None)` (on the unique-key dicts built by `dictSet`,
filtering equals removing the single entry). -/
def dictPop (m : List (String × ToolCall)) (k : String) : List (String × ToolCall) :=
  m.filter (fun p => decide (p.1 ≠ k))

/-- Result of the decision loop: effects, failure mode, the pending map, and
the decisions left in the queue. -/
structure DecOut where
  trace : List Effect
  fail : Option Fail
  pending : List (String × ToolCall)
  decisions : List ToolDecision

/-- The effects of handling one matched decision: on `"approve"` emit
`tool.call.approved` then execute the tool (emitting `tool.result`);
otherwise emit `tool.call.rejected` carrying the optional reason. -/
def decisionEffects (env : Env) (reg : ToolRegistry) (cwd : String) (call : ToolCall)
    (d : ToolDecision) : ERes :=
  if d.decision = "approve" then
    eseq (emitE env "tool.call.approved"
            (.obj [("tool_id", .s call.id), ("name", .s call.name)]))
         (execToolE env reg cwd call)
  else
    emitE env "tool.call.rejected"
      (.obj [("tool_id", .s call.id), ("name", .s call.name),
             ("reason", jOptStr d.reason)])

/-- The `while self._pending and not self._cancel.is_set():` loop of
`_handle_decisions_loop`.  `ds` is the stream of decisions the queue will
deliver; an exhausted stream with calls still pending models the
never-returning `await self._decisions.get()`.  A decision for an id not in
`pending` is skipped (`continue`); otherwise the approve/reject events (and,
on approval, the tool execution) happen and the call is popped. -/
def decisionsGo (env : Env) (reg : ToolRegistry) (cwd : String) (cancel : Bool) :
    List ToolDecision → List (String × ToolCall) → DecOut
  | ds, pending =>
    if pending.isEmpty || cancel then ⟨[], none, pending, ds⟩
    else
      match ds with
      | [] => ⟨[], some .blocked, pending, []⟩
      | d :: rest =>
        match dictGet pending d.call_id with
        | none => decisionsGo env reg cwd cancel rest pending
        | some call =>
          let er := decisionEffects env reg cwd call d
          match er.2 with
          | some f => ⟨er.1, some f, pending, rest⟩
          | none =>
            let r := decisionsGo env reg cwd cancel rest (dictPop pending call.id)
            ⟨er.1 ++ r.trace, r.fail, r.pending, r.decisions⟩

/-- Model of `_handle_decisions_loop`: the loop above followed by the
`if not self._pending:` resume block. -/
def handleDecisionsF (env : Env) (reg : ToolRegistry) (cwd : String) (cancel : Bool)
    (ds : List ToolDecision) (pending : List (String × ToolCall)) : DecOut :=
  let r := decisionsGo env reg cwd cancel ds pending
  match r.fail with
  | some _ => r
  | none =>
    if r.pending.isEmpty then
      let er := eseq (statE env "running") (emitE env "run.resumed" (.obj []))
      ⟨r.trace ++ er.1, er.2, r.pending, r.decisions⟩
    else r

/-- The `tool.calls.proposed` payload. -/
def proposedData (ptools : List ToolCall) (auto : Bool) (s : Nat) : JVal :=
  .obj [("tools", .arr (ptools.map (fun c =>
          .obj [("id", .s c.id), ("name", .s c.name),
                ("args", .obj (c.args.map (fun p => (p.1, JVal.s p.2))))]))),
        ("auto_approve", .b auto), ("step", .n s)]

/-- Result of the main loop (and of `run`): effects, failure mode, pending
map, remaining decisions, and the final value of the `step` counter. -/
structure LoopOut where
  trace : List Effect
  fail : Option Fail
  pending : List (String × ToolCall)
  decisions : List ToolDecision
  step : Nat

/-- The `while step < self.max_steps and not self._cancel.is_set():` loop of
`SessionRunner.run`.  The fuel argument is `max_steps - step`, so `fuel = 0`
is exactly the exit `step < max_steps` failing; the cancellation check stays
explicit.  Each iteration emits `run.step.started`, calls the agent, then
either registers+proposes tool calls (auto-executing them or pausing into the
decision loop) and continues, or persists+emits a truthy final answer and
breaks, or (no tools, falsy final) just continues. -/
def loopGo (env : Env) (reg : ToolRegistry) (cwd : String) (auto : Bool) (cancel : Bool) :
    Nat → Nat → List (String × ToolCall) → List ToolDecision → LoopOut
  | 0, step, pending, ds => ⟨[], none, pending, ds, step⟩
  | Nat.succ fuel, step, pending, ds =>
    if cancel then ⟨[], none, pending, ds, step⟩
    else
      let s := step + 1
      let e1 := emitE env "run.step.started" (.obj [("step", .n s)])
      match e1.2 with
      | some f => ⟨e1.1, some f, pending, ds, s⟩
      | none =>
        match env.agentStep s with
        | .error e => ⟨e1.1, some (.exc e), pending, ds, s⟩
        | .ok st =>
          let ptools := st.pending_tools.getD []
          if ptools.isEmpty then
            match st.final with
            | none =>
              let r := loopGo env reg cwd auto cancel fuel s pending ds
              ⟨e1.1 ++ r.trace, r.fail, r.pending, r.decisions, r.step⟩
            | some msg =>
              if msg.isEmpty then
                let r := loopGo env reg cwd auto cancel fuel s pending ds
                ⟨e1.1 ++ r.trace, r.fail, r.pending, r.decisions, r.step⟩
              else
                let e2 := eseq (addMsgE env "assistant" msg)
                    (emitE env "assistant.final" (.obj [("text", .s msg), ("step", .n s)]))
                ⟨e1.1 ++ e2.1, e2.2, pending, ds, s⟩
          else
            let pending2 := ptools.foldl (fun m c => dictSet m c.id c) pending
            let e2 := emitE env "tool.calls.proposed" (proposedData ptools auto s)
            match e2.2 with
            | some f => ⟨e1.1 ++ e2.1, some f, pending2, ds, s⟩
            | none =>
              if auto then
                let e3 := eforExec env reg cwd ptools
                match e3.2 with
                | some f => ⟨e1.1 ++ e2.1 ++ e3.1, some f, pending2, ds, s⟩
                | none =>
                  let r := loopGo env reg cwd auto cancel fuel s pending2 ds
                  ⟨e1.1 ++ e2.1 ++ e3.1 ++ r.trace, r.fail, r.pending, r.decisions, r.step⟩
              else
                let e3 := eseq (statE env "paused")
                    (emitE env "run.paused"
                      (.obj [("reason", .s "awaiting_tool_approval"), ("step", .n s)]))
                match e3.2 with
                | some f => ⟨e1.1 ++ e2.1 ++ e3.1, some f, pending2, ds, s⟩
                | none =>
                  let hd := handleDecisionsF env reg cwd cancel ds pending2
                  match hd.fail with
                  | some f =>
                    ⟨e1.1 ++ e2.1 ++ e3.1 ++ hd.trace, some f, hd.pending, hd.decisions, s⟩
                  | none =>
                    let r := loopGo env reg cwd auto cancel fuel s hd.pending hd.decisions
                    ⟨e1.1 ++ e2.1 ++ e3.1 ++ hd.trace ++ r.trace,
                     r.fail, r.pending, r.decisions, r.step⟩

/-- The configuration of one `SessionRunner`.  `__init__` filters the
process-wide registry through the run's allow-list. -/
structure SessionRunner where
  model : Option String
  auto_approve : Bool
  max_steps : Nat
  allowed_tools : Option (List String)
  registry : ToolRegistry
  cwd : String

/-- Model of `SessionRunner.__init__` (the parts claims depend on). -/
def SessionRunner.init (base : ToolRegistry) (model : Option String) (auto_approve : Bool)
    (max_steps : Nat) (allowed_tools : Option (List String)) (cwd : String) : SessionRunner :=
  ⟨model, auto_approve, max_steps, allowed_tools, base.filter_allowed allowed_tools, cwd⟩

/-- The `run.started` payload. -/
def runStartedData (P : SessionRunner) : JVal :=
  .obj [("model", jOptStr P.model), ("auto_approve", .b P.auto_approve),
        ("max_steps", .n P.max_steps)]

/-- The body of the `try:` block of `SessionRunner.run`: initial status and
events, the main loop, then the completion block choosing `cancelled` or
`completed`. -/
def runBody (P : SessionRunner) (env : Env) (cancel : Bool) (user_text : String)
    (ds : List ToolDecision) : LoopOut :=
  let e1 := eseq (statE env "running") (emitE env "run.started" (runStartedData P))
  match e1.2 with
  | some f => ⟨e1.1, some f, [], ds, 0⟩
  | none =>
    let e2 := eseq (addMsgE env "user" user_text)
        (emitE env "assistant.user_message" (.obj [("text", .s user_text)]))
    match e2.2 with
    | some f => ⟨e1.1 ++ e2.1, some f, [], ds, 0⟩
    | none =>
      let r := loopGo env P.registry P.cwd P.auto_approve cancel P.max_steps 0 [] ds
      match r.fail with
      | some f => ⟨e1.1 ++ e2.1 ++ r.trace, some f, r.pending, r.decisions, r.step⟩
      | none =>
        let e3 :=
          if cancel then eseq (statE env "cancelled") (emitE env "run.cancelled" (.obj []))
          else eseq (statE env "completed")
              (emitE env "run.completed" (.obj [("steps_used", .n r.step)]))
        ⟨e1.1 ++ e2.1 ++ r.trace ++ e3.1, e3.2, r.pending, r.decisions, r.step⟩

/-- Model of `SessionRunner.run`: the try body wrapped by
`except Exception: update_run_status("failed"); emit("run.error", ...)`.
The handler itself runs store/bus calls that may raise; a `blocked` body
never reaches the handler.  `cancel` is the value of the `_cancel` flag
during the run (it is set only through `SessionRunner.cancel`), and `ds` is
the stream of decisions `submit_decision` will have enqueued, in arrival
order. -/
def SessionRunner.run (P : SessionRunner) (env : Env) (cancel : Bool) (user_text : String)
    (ds : List ToolDecision) : LoopOut :=
  let b := runBody P env cancel user_text ds
  match b.fail with
  | none => b
  | some .blocked => b
  | some (.exc e) =>
    let h := eseq (statE env "failed") (emitE env "run.error" (.obj [("error", .s e)]))
    ⟨b.trace ++ h.1, h.2, b.pending, b.decisions, b.step⟩

/-- Model of `SessionRunner.cancel`: set the cancellation flag (the returned `Bool`),
unconditionally write status `cancelled`, and emit `run.cancelled`.  There is
no guard against a terminal or already-cancelled run. -/
def SessionRunner.cancel (env : Env) : Bool × ERes :=
  (true, eseq (statE env "cancelled") (emitE env "run.cancelled" (.obj [])))

/-- Model of `SessionRunner.submit_decision`: it simply appends to the decision queue. -/
def submit_decision (ds : List ToolDecision) (d : ToolDecision) : List ToolDecision :=
  ds ++ [d]

/-! ## Shared helpers for the claim theorems -/

/-- Is this effect a status write of `s`? -/
def isStatusW (s : String) : Effect → Bool
  | .statusWrite t => t = s
  | _ => false

/-- Is this effect a bus publication of event type `ty`? -/
def isPubOf (ty : String) : Effect → Bool
  | .published t _ => t = ty
  | _ => false

/-- An environment in which every external call succeeds and the agent
always returns an empty (no tools, no final) state. -/
def envAllOk : Env :=
  ⟨fun _ => .ok { messages := [] }, fun _ => .ok (), fun _ _ => .ok (),
   fun _ => .ok (), fun _ => .ok ()⟩

/-- A concrete publish-argument value used by witnesses. -/
def pargDemo (ty : String) : EventBus.PubArgs := ⟨ty, .obj [], "runner", none, none, 0⟩

/-- C1 chained at concrete inputs: first publish batch. -/
def c1r1 : BusState × List EventEnvelope :=
  EventBus.pubMany (EventBus.init 2 2) "t" [pargDemo "a", pargDemo "b"]

/-- C1 chained at concrete inputs: the subscription with `since_id = 1`. -/
def c1r2 : BusState × Nat := EventBus.subscribe c1r1.1 "t" (some 1) true

/-- C1 chained at concrete inputs: second publish batch. -/
def c1r3 : BusState × List EventEnvelope := EventBus.pubMany c1r2.1 "t" [pargDemo "c"]

/-- C7 chained at concrete inputs: subscribe with capacity 1, then two
publishes. -/
def c7r2 : BusState × Nat := EventBus.subscribe (EventBus.init 1 4) "t" none true

/-- C7 second stage at concrete inputs. -/
def c7r3 : BusState × List EventEnvelope :=
  EventBus.pubMany c7r2.1 "t" [pargDemo "a", pargDemo "b"]

/-- All external calls succeed. -/
def EnvOk (env : Env) : Prop :=
  (∀ s, env.storeStatus s = .ok ()) ∧ (∀ r t2, env.storeMessage r t2 = .ok ()) ∧
  (∀ t2, env.storeEvent t2 = .ok ()) ∧ (∀ t2, env.busPublish t2 = .ok ())

/-- The event types the try-body of `run` can store or publish (note:
`run.error` is not among them — it is emitted only by the except handler). -/
def runnerPublishTys : List String :=
  ["run.started", "assistant.user_message", "run.step.started", "tool.calls.proposed",
   "run.paused", "tool.call.approved", "tool.call.rejected", "tool.result", "run.resumed",
   "assistant.final", "run.cancelled", "run.completed"]

/-- Classification of a body-trace effect: its event type, if it has one, is
a body event type. -/
def effTyOk (e : Effect) : Prop :=
  match e with
  | .storeEvent ty => ty ∈ runnerPublishTys
  | .published ty _ => ty ∈ runnerPublishTys
  | _ => True

/-- Environment for the C5 counterexample: the reasoning step raises on
every call, and the store raises exactly on the `failed` status write that
the except handler performs. -/
def envC5 : Env :=
  ⟨fun _ => .error "boom",
   fun s => if s = "failed" then .error "cannot persist" else .ok (),
   fun _ _ => .ok (), fun _ => .ok (), fun _ => .ok ()⟩

/-- The runner configuration used by the C5 and C6 concrete runs. -/
def P5c : SessionRunner :=
  SessionRunner.init (ToolRegistry.mk [("echo", echoTool)]) none true 1 none "/w"

/-- Environment for the C5 witness: the reasoning step raises, everything
else succeeds. -/
def envC5w : Env :=
  ⟨fun _ => .error "boom", fun _ => .ok (), fun _ _ => .ok (),
   fun _ => .ok (), fun _ => .ok ()⟩

/-- The `run.step.started` store/publish pairs emitted by `fuel` no-op loop
iterations beginning after step counter value `step`. -/
def noopTrace : Nat → Nat → List Effect
  | _, 0 => []
  | step, fuel + 1 =>
    .storeEvent "run.step.started" ::
      .published "run.step.started" (.obj [("step", .n (step + 1))]) :: noopTrace (step + 1) fuel

/-- The effects `run` performs before entering the loop. -/
def startTrace (P : SessionRunner) (ut : String) : List Effect :=
  [.statusWrite "running", .storeEvent "run.started",
   .published "run.started" (runStartedData P),
   .storeMessage "user" ut, .storeEvent "assistant.user_message",
   .published "assistant.user_message" (.obj [("text", .s ut)])]

/-- The runner configuration of the C8 counterexample: allow-list
`["write_file"]`, auto-approval, one step. -/
def P8c : SessionRunner :=
  SessionRunner.init (ToolRegistry.mk [("echo", echoTool)]) none true 1
    (some ["write_file"]) "/w"

/-- Environment of the C8 counterexample: the Azure configuration is absent,
so every reasoning step runs the regex fallback on `"read secret.txt"` (the
`llm` argument is irrelevant on that path); all store/bus calls succeed. -/
def env8c : Env :=
  ⟨fun _ => .ok (run_agent_once none (.ok (.content "")) (fun _ => "u0")
      "read secret.txt" "/w" (some ["write_file"])),
   fun _ => .ok (), fun _ _ => .ok (), fun _ => .ok (), fun _ => .ok ()⟩

/-- A concrete Azure configuration for the C8 witness. -/
def ac8 : AzureCfg := ⟨"https://e", "key", "dep", "2025-01-01-preview"⟩

/-- Runner configuration for the C8 witness: allow-list `["read_file"]`. -/
def P8w : SessionRunner :=
  SessionRunner.init (ToolRegistry.mk [("echo", echoTool)]) none true 1
    (some ["read_file"]) "/w"

/-- Environment for the C8 witness: the LLM proposes `write_file`, which is
outside the allow-list. -/
def env8w : Env :=
  ⟨fun _ => .ok (run_agent_once (some ac8) (.ok (.toolCalls [("write_file", [])]))
      (fun _ => "u1") "hi" "/w" (some ["read_file"])),
   fun _ => .ok (), fun _ _ => .ok (), fun _ => .ok (), fun _ => .ok ()⟩

/-- Environment for the C6 counterexample: the first step proposes one tool
call `c1`, the second step returns a final answer; all store/bus calls
succeed. -/
def env6c : Env :=
  ⟨fun n => if n = 1
      then .ok { messages := [], pending_tools := some [⟨"c1", "echo", [("text", "hi")]⟩] }
      else .ok { messages := [], final := some "done" },
   fun _ => .ok (), fun _ _ => .ok (), fun _ => .ok (), fun _ => .ok ()⟩

/-- Runner configuration for the C6 counterexample: auto-approve on, two
steps, full registry. -/
def P6c : SessionRunner :=
  SessionRunner.init (ToolRegistry.mk [("echo", echoTool)]) none true 2 none "/w"

/-- The concrete pending call used by the C6 witness. -/
def call6 : ToolCall := ⟨"c1", "echo", [("text", "hi")]⟩

/-- The registry used by the C6 witness. -/
def reg6 : ToolRegistry := ToolRegistry.mk [("echo", echoTool)]

/-! ## C9 -/

/-- C9: `ToolRegistry.execute` always returns a `ToolResult` (it is a total
function of the registry, call and cwd; no exception crosses the boundary):
an unknown tool name yields `ok = false` with a message naming the tool, an
exception raised by the tool's own `run` yields `ok = false` carrying the
exception type and text, and a successful `run` yields `ok = true` carrying
the output. -/
theorem C9_execute_never_raises (reg : ToolRegistry) (tc : ToolCall) (cwd : String) :
    (reg.get tc.name = none →
      reg.execute tc cwd = ⟨tc.id, false, "Unknown tool: " ++ tc.name⟩) ∧
    (∀ tool out, reg.get tc.name = some tool → tool.run cwd tc.args = .ok out →
      reg.execute tc cwd = ⟨tc.id, true, out⟩) ∧
    (∀ tool ty msg, reg.get tc.name = some tool → tool.run cwd tc.args = .exc ty msg →
      reg.execute tc cwd = ⟨tc.id, false, ty ++ ": " ++ msg⟩) := by
  refine ⟨fun h => ?_, fun tool out h1 h2 => ?_, fun tool ty msg h1 h2 => ?_⟩ <;>
    simp [ToolRegistry.execute, *]

/-- Witness for C9 at concrete inputs: a one-tool registry, an unknown-name
call hitting the first clause, and a successful echo call hitting the second. -/
theorem C9_witness :
    ((ToolRegistry.mk [("echo", echoTool)]).get "nope" = none ∧
      (ToolRegistry.mk [("echo", echoTool)]).execute ⟨"i1", "nope", []⟩ "/w" =
        ⟨"i1", false, "Unknown tool: nope"⟩) ∧
    (echoTool.run "/w" [("text", "hi")] = .ok "hi" ∧
      (ToolRegistry.mk [("echo", echoTool)]).execute ⟨"i2", "echo", [("text", "hi")]⟩ "/w" =
        ⟨"i2", true, "hi"⟩) :=
  ⟨⟨rfl, (C9_execute_never_raises (ToolRegistry.mk [("echo", echoTool)]) ⟨"i1", "nope", []⟩ "/w").1 rfl⟩,
   ⟨rfl, (C9_execute_never_raises (ToolRegistry.mk [("echo", echoTool)])
      ⟨"i2", "echo", [("text", "hi")]⟩ "/w").2.1 echoTool "hi" rfl rfl⟩⟩

/-! ## C10 -/

/-- C10: `filter_allowed` with `None` or `[]` returns the registry unchanged
(no filtering at all), and with a non-empty list restricts the registry to
exactly the listed names that exist in it. -/
theorem C10_filter_allowed_falsy_is_identity (reg : ToolRegistry) :
    reg.filter_allowed none = reg ∧
    reg.filter_allowed (some []) = reg ∧
    (∀ l : List String, l ≠ [] →
      (reg.filter_allowed (some l)).tools =
        reg.tools.filter (fun p => decide (p.1 ∈ l))) := by
  refine ⟨rfl, rfl, fun l hl => ?_⟩
  simp [ToolRegistry.filter_allowed, hl]

/-- Witness for C10: non-empty allow-list clause at a concrete registry. -/
theorem C10_witness :
    (["write_file"] : List String) ≠ [] ∧
    ((ToolRegistry.mk [("echo", echoTool)]).filter_allowed (some ["write_file"])).tools =
      (ToolRegistry.mk [("echo", echoTool)]).tools.filter
        (fun p => decide (p.1 ∈ (["write_file"] : List String))) :=
  ⟨by decide,
   (C10_filter_allowed_falsy_is_identity (ToolRegistry.mk [("echo", echoTool)])).2.2
     ["write_file"] (by decide)⟩

/-! ## C2 -/

/-- C2 counterexample: with a store and bus that never fail, two successive
`cancel()` calls produce two `cancelled` status writes and two
`run.cancelled` publications — refuting the claimed "exactly one ... never
two". -/
theorem C2_counterexample :
    ((SessionRunner.cancel envAllOk).2.1 ++ (SessionRunner.cancel envAllOk).2.1).countP
        (isStatusW "cancelled") = 2 ∧
    ((SessionRunner.cancel envAllOk).2.1 ++ (SessionRunner.cancel envAllOk).2.1).countP
        (isPubOf "run.cancelled") = 2 ∧
    ¬ ((SessionRunner.cancel envAllOk).2.1 ++ (SessionRunner.cancel envAllOk).2.1).countP
        (isPubOf "run.cancelled") = 1 := by
  refine ⟨rfl, rfl, by decide⟩

/-- C2 (amended): `cancel()` is not idempotent and not guarded against
terminal runs — every call (whenever it happens, including after terminal
state) sets the flag, performs exactly one `cancelled` status write and one
`run.cancelled` publication, so `n` calls perform `n` of each; in particular
two calls produce two of each. -/
theorem C2_amended_cancel_unguarded (env : Env)
    (h1 : env.storeStatus "cancelled" = .ok ())
    (h2 : env.storeEvent "run.cancelled" = .ok ())
    (h3 : env.busPublish "run.cancelled" = .ok ()) :
    SessionRunner.cancel env =
      (true, ([.statusWrite "cancelled", .storeEvent "run.cancelled",
               .published "run.cancelled" (.obj [])], none)) ∧
    ((SessionRunner.cancel env).2.1 ++ (SessionRunner.cancel env).2.1).countP
        (isStatusW "cancelled") = 2 ∧
    ((SessionRunner.cancel env).2.1 ++ (SessionRunner.cancel env).2.1).countP
        (isPubOf "run.cancelled") = 2 := by
  have hc : SessionRunner.cancel env =
      (true, ([.statusWrite "cancelled", .storeEvent "run.cancelled",
               .published "run.cancelled" (.obj [])], none)) := by
    simp [SessionRunner.cancel, eseq, statE, emitE, h1, h2, h3]
  refine ⟨hc, ?_, ?_⟩ <;> rw [hc] <;> rfl

/-- Witness for C2's amended theorem at the all-succeeding environment. -/
theorem C2_amended_witness :
    (envAllOk.storeStatus "cancelled" = .ok () ∧
     envAllOk.storeEvent "run.cancelled" = .ok () ∧
     envAllOk.busPublish "run.cancelled" = .ok ()) ∧
    SessionRunner.cancel envAllOk =
      (true, ([.statusWrite "cancelled", .storeEvent "run.cancelled",
               .published "run.cancelled" (.obj [])], none)) :=
  ⟨⟨rfl, rfl, rfl⟩, (C2_amended_cancel_unguarded envAllOk rfl rfl rfl).1⟩

/-! ## Bus lemmas -/

namespace EventBus

theorem takeLastN_of_le {n : Nat} {l : List EventEnvelope} (h : l.length ≤ n) :
    takeLastN n l = l := by
  unfold takeLastN
  rw [Nat.sub_eq_zero_of_le h, List.drop_zero]

theorem takeLastN_cons_of_le (n : Nat) (x : EventEnvelope) {l : List EventEnvelope}
    (h : n ≤ l.length) : takeLastN n (x :: l) = takeLastN n l := by
  unfold takeLastN
  have hx : (x :: l).length - n = (l.length - n) + 1 := by
    simp only [List.length_cons]; omega
  rw [hx, List.drop_succ_cons]

theorem takeLastN_idem_append (n : Nat) (l m : List EventEnvelope) :
    takeLastN n (takeLastN n l ++ m) = takeLastN n (l ++ m) := by
  unfold takeLastN
  rcases Nat.le_total l.length n with h | h
  · rw [Nat.sub_eq_zero_of_le h, List.drop_zero]
  · rw [List.drop_append_eq_append_drop, List.drop_append_eq_append_drop, List.drop_drop]
    have h1 : (l.drop (l.length - n)).length = n := by
      rw [List.length_drop]; omega
    congr 2 <;> simp only [List.length_append, h1, List.length_drop] <;> omega

theorem putDropOldest_maxsize (q : Mailbox) (env : EventEnvelope) :
    (putDropOldest q env).maxsize = q.maxsize := by
  simp only [putDropOldest]
  split <;> (try split) <;> rfl

theorem putDropOldest_not_full (q : Mailbox) (env : EventEnvelope)
    (h : q.maxsize = 0 ∨ q.items.length < q.maxsize) :
    putDropOldest q env = ⟨q.maxsize, q.items ++ [env]⟩ := by
  have hf : q.full = false := by
    unfold Mailbox.full
    rcases h with h | h <;> simp <;> omega
  simp [putDropOldest, hf]

theorem putDropOldest_at_capacity (q : Mailbox) (env : EventEnvelope)
    (h0 : 0 < q.maxsize) (h : q.items.length = q.maxsize) :
    putDropOldest q env = ⟨q.maxsize, q.items.tail ++ [env]⟩ := by
  have hf : q.full = true := by
    unfold Mailbox.full; simp; omega
  have hf2 : (Mailbox.mk q.maxsize q.items.tail).full = false := by
    unfold Mailbox.full
    simp only [List.length_tail, decide_eq_false_iff_not, not_and, not_le]
    omega
  simp [putDropOldest, hf, hf2]

theorem foldl_put_append : ∀ (es : List EventEnvelope) (q : Mailbox),
    (q.maxsize = 0 ∨ q.items.length + es.length ≤ q.maxsize) →
    es.foldl putDropOldest q = ⟨q.maxsize, q.items ++ es⟩
  | [], q, _ => by simp
  | e :: es, q, h => by
    have h1 : q.maxsize = 0 ∨ q.items.length < q.maxsize := by
      rcases h with h | h
      · exact Or.inl h
      · right; simp only [List.length_cons] at h; omega
    have h2 : (Mailbox.mk q.maxsize (q.items ++ [e])).maxsize = 0 ∨
        (Mailbox.mk q.maxsize (q.items ++ [e])).items.length + es.length ≤
          (Mailbox.mk q.maxsize (q.items ++ [e])).maxsize := by
      rcases h with h | h
      · exact Or.inl h
      · right
        simp only [List.length_append, List.length_cons, List.length_nil] at h ⊢
        omega
    rw [List.foldl_cons, putDropOldest_not_full q e h1,
        foldl_put_append es (Mailbox.mk q.maxsize (q.items ++ [e])) h2]
    simp

theorem foldl_put_takeLast : ∀ (es : List EventEnvelope) (q : Mailbox),
    0 < q.maxsize → q.items.length ≤ q.maxsize →
    es.foldl putDropOldest q = ⟨q.maxsize, takeLastN q.maxsize (q.items ++ es)⟩
  | [], q, _, h2 => by
    simp [takeLastN_of_le (by simpa using h2)]
  | e :: es, q, h1, h2 => by
    rcases Nat.lt_or_ge q.items.length q.maxsize with hlt | hge
    · have hlen : (Mailbox.mk q.maxsize (q.items ++ [e])).items.length ≤
          (Mailbox.mk q.maxsize (q.items ++ [e])).maxsize := by
        simp only [List.length_append, List.length_cons, List.length_nil]
        omega
      rw [List.foldl_cons, putDropOldest_not_full q e (Or.inr hlt),
          foldl_put_takeLast es (Mailbox.mk q.maxsize (q.items ++ [e])) h1 hlen]
      simp only [List.append_assoc, List.cons_append, List.nil_append]
    · have heq : q.items.length = q.maxsize := Nat.le_antisymm h2 hge
      have hlen : (Mailbox.mk q.maxsize (q.items.tail ++ [e])).items.length ≤
          (Mailbox.mk q.maxsize (q.items.tail ++ [e])).maxsize := by
        simp only [List.length_append, List.length_tail, List.length_cons, List.length_nil]
        omega
      rw [List.foldl_cons, putDropOldest_at_capacity q e h1 heq,
          foldl_put_takeLast es (Mailbox.mk q.maxsize (q.items.tail ++ [e])) h1 hlen]
      have hne : q.items ≠ [] := by
        intro hnil
        rw [hnil] at heq
        simp only [List.length_nil] at heq
        omega
      obtain ⟨hd, tl, hcons⟩ := List.exists_cons_of_ne_nil hne
      rw [hcons]
      simp only [List.tail_cons, List.cons_append]
      have htl : tl.length = q.maxsize - 1 := by
        rw [hcons] at heq
        simp only [List.length_cons] at heq
        omega
      rw [takeLastN_cons_of_le q.maxsize hd (l := tl ++ e :: es) ?_]
      · simp [List.append_assoc]
      · simp only [List.length_append, List.length_cons, htl]
        omega
end EventBus


namespace EventBus

theorem mkEnv_id (eid : Nat) (a : PubArgs) : (mkEnv eid a).meta.id = eid := rfl

theorem mkEnvs_length (as2 : List PubArgs) : ∀ b : Nat, (mkEnvs b as2).length = as2.length := by
  induction as2 with
  | nil => intro b; rfl
  | cons a as2 ih => intro b; simp [mkEnvs, ih (b + 1)]

theorem mkEnvs_append (xs ys : List PubArgs) : ∀ b : Nat,
    mkEnvs b (xs ++ ys) = mkEnvs b xs ++ mkEnvs (b + xs.length) ys := by
  induction xs with
  | nil => intro b; simp [mkEnvs]
  | cons x xs ih =>
    intro b
    simp only [List.cons_append, mkEnvs, List.append_eq, ih (b + 1), List.length_cons]
    have h : b + 1 + xs.length = b + (xs.length + 1) := by omega
    rw [h]

theorem mkEnvs_drop (as2 : List PubArgs) : ∀ b j : Nat,
    (mkEnvs b as2).drop j = mkEnvs (b + j) (as2.drop j) := by
  induction as2 with
  | nil => intro b j; simp [mkEnvs]
  | cons a as2 ih =>
    intro b j
    match j with
    | 0 => rfl
    | j + 1 =>
      simp only [mkEnvs, List.drop_succ_cons, ih (b + 1) j]
      have h : b + 1 + j = b + (j + 1) := by omega
      rw [h]

theorem mkEnvs_map_id (as2 : List PubArgs) : ∀ b : Nat,
    (mkEnvs b as2).map (fun e => e.meta.id) = List.range' (b + 1) as2.length := by
  induction as2 with
  | nil => intro b; rfl
  | cons a as2 ih =>
    intro b
    simp only [mkEnvs, List.map_cons, ih (b + 1), List.length_cons, List.range'_succ, mkEnv_id]

theorem mkEnvs_filter_gt_of_le (as2 : List PubArgs) : ∀ b k : Nat, k ≤ b →
    (mkEnvs b as2).filter (fun e => decide (k < e.meta.id)) = mkEnvs b as2 := by
  induction as2 with
  | nil => intro b k _; rfl
  | cons a as2 ih =>
    intro b k h
    have hk : decide (k < (mkEnv (b + 1) a).meta.id) = true := by
      rw [mkEnv_id]; simp; omega
    simp only [mkEnvs, List.filter_cons, hk, if_true, ih (b + 1) k (by omega)]

theorem mkEnvs_filter_gt (as2 : List PubArgs) : ∀ b k : Nat, b ≤ k →
    (mkEnvs b as2).filter (fun e => decide (k < e.meta.id)) = mkEnvs k (as2.drop (k - b)) := by
  induction as2 with
  | nil => intro b k _; simp [mkEnvs]
  | cons a as2 ih =>
    intro b k h
    rcases Nat.eq_or_lt_of_le h with heq | hlt
    · subst heq
      simp only [Nat.sub_self, List.drop_zero]
      exact mkEnvs_filter_gt_of_le (a :: as2) b b (Nat.le_refl b)
    · have hk : decide (k < (mkEnv (b + 1) a).meta.id) = false := by
        rw [mkEnv_id]; simp; omega
      simp only [mkEnvs, List.filter_cons, hk, Bool.false_eq_true, if_false, ih (b + 1) k hlt]
      have h2 : k - b = (k - (b + 1)) + 1 := by omega
      rw [h2, List.drop_succ_cons]

theorem publish_fst_seq (s : BusState) (t : Topic) (a : PubArgs) :
    ((publish s t a).1).seq t = s.seq t + 1 := by simp [publish]

theorem publish_fst_seq_ne (s : BusState) (t t2 : Topic) (a : PubArgs) (h : t2 ≠ t) :
    ((publish s t a).1).seq t2 = s.seq t2 := by simp [publish, h]

theorem publish_snd (s : BusState) (t : Topic) (a : PubArgs) :
    (publish s t a).2 = mkEnv (s.seq t + 1) a := rfl

theorem publish_fst_subs (s : BusState) (t t2 : Topic) (a : PubArgs) :
    ((publish s t a).1).subs t2 = s.subs t2 := rfl

theorem publish_fst_nextQ (s : BusState) (t : Topic) (a : PubArgs) :
    ((publish s t a).1).nextQ = s.nextQ := rfl

theorem publish_fst_qsize (s : BusState) (t : Topic) (a : PubArgs) :
    ((publish s t a).1).qsize = s.qsize := rfl

theorem publish_fst_hsize (s : BusState) (t : Topic) (a : PubArgs) :
    ((publish s t a).1).hsize = s.hsize := rfl

theorem publish_fst_history (s : BusState) (t : Topic) (a : PubArgs) :
    ((publish s t a).1).history t =
      dequeAppend s.hsize (s.history t) (mkEnv (s.seq t + 1) a) := by
  simp [publish]

theorem publish_fst_mailboxes_single (s : BusState) (t : Topic) (a : PubArgs) (qid : Nat)
    (h : s.subs t = [qid]) :
    ((publish s t a).1).mailboxes qid =
      putDropOldest (s.mailboxes qid) (mkEnv (s.seq t + 1) a) := by
  simp [publish, fanout, h]

theorem dequeAppend_eq_takeLast (n : Nat) (d : List EventEnvelope) (x : EventEnvelope) :
    dequeAppend n d x = takeLastN n (d ++ [x]) := rfl

theorem pubMany_envs (as2 : List PubArgs) : ∀ (s : BusState) (t : Topic),
    (pubMany s t as2).2 = mkEnvs (s.seq t) as2 := by
  induction as2 with
  | nil => intro s t; rfl
  | cons a as2 ih =>
    intro s t
    simp only [pubMany, mkEnvs, ih, publish_fst_seq, publish_snd]

theorem pubMany_seq_self (as2 : List PubArgs) : ∀ (s : BusState) (t : Topic),
    ((pubMany s t as2).1).seq t = s.seq t + as2.length := by
  induction as2 with
  | nil => intro s t; rfl
  | cons a as2 ih =>
    intro s t
    simp only [pubMany, ih, publish_fst_seq, List.length_cons]
    omega

theorem pubMany_subs (as2 : List PubArgs) : ∀ (s : BusState) (t t2 : Topic),
    ((pubMany s t as2).1).subs t2 = s.subs t2 := by
  induction as2 with
  | nil => intro s t t2; rfl
  | cons a as2 ih => intro s t t2; simp only [pubMany, ih, publish_fst_subs]

theorem pubMany_nextQ (as2 : List PubArgs) : ∀ (s : BusState) (t : Topic),
    ((pubMany s t as2).1).nextQ = s.nextQ := by
  induction as2 with
  | nil => intro s t; rfl
  | cons a as2 ih => intro s t; simp only [pubMany, ih, publish_fst_nextQ]

theorem pubMany_qsize (as2 : List PubArgs) : ∀ (s : BusState) (t : Topic),
    ((pubMany s t as2).1).qsize = s.qsize := by
  induction as2 with
  | nil => intro s t; rfl
  | cons a as2 ih => intro s t; simp only [pubMany, ih, publish_fst_qsize]

theorem pubMany_hsize (as2 : List PubArgs) : ∀ (s : BusState) (t : Topic),
    ((pubMany s t as2).1).hsize = s.hsize := by
  induction as2 with
  | nil => intro s t; rfl
  | cons a as2 ih => intro s t; simp only [pubMany, ih, publish_fst_hsize]

theorem pubMany_history (as2 : List PubArgs) : ∀ (s : BusState) (t : Topic),
    (s.history t).length ≤ s.hsize →
    ((pubMany s t as2).1).history t = takeLastN s.hsize (s.history t ++ mkEnvs (s.seq t) as2) := by
  induction as2 with
  | nil =>
    intro s t h
    simp only [pubMany, mkEnvs, List.append_nil]
    exact (takeLastN_of_le h).symm
  | cons a as2 ih =>
    intro s t h
    have hlen : (((publish s t a).1).history t).length ≤ ((publish s t a).1).hsize := by
      rw [publish_fst_history, publish_fst_hsize, dequeAppend_eq_takeLast]
      unfold takeLastN
      rw [List.length_drop]
      omega
    have hmain := ih ((publish s t a).1) t hlen
    rw [publish_fst_history, publish_fst_hsize, publish_fst_seq, dequeAppend_eq_takeLast] at hmain
    simp only [pubMany, mkEnvs, hmain, takeLastN_idem_append]
    simp

theorem pubMany_mailbox_single (as2 : List PubArgs) : ∀ (s : BusState) (t : Topic) (qid : Nat),
    s.subs t = [qid] →
    ((pubMany s t as2).1).mailboxes qid =
      (mkEnvs (s.seq t) as2).foldl putDropOldest (s.mailboxes qid) := by
  induction as2 with
  | nil => intro s t qid _; rfl
  | cons a as2 ih =>
    intro s t qid h
    have hsubs : ((publish s t a).1).subs t = [qid] := by rw [publish_fst_subs]; exact h
    have hmain := ih ((publish s t a).1) t qid hsubs
    rw [publish_fst_seq, publish_fst_mailboxes_single s t a qid h] at hmain
    simp only [pubMany, mkEnvs, List.foldl_cons, hmain]

end EventBus

namespace EventBus

theorem subscribe_snd (s : BusState) (t : Topic) (since : Option Nat) (rep : Bool) :
    (subscribe s t since rep).2 = s.nextQ := rfl

theorem subscribe_fst_seq (s : BusState) (t : Topic) (since : Option Nat) (rep : Bool)
    (t2 : Topic) : ((subscribe s t since rep).1).seq t2 = s.seq t2 := rfl

theorem subscribe_fst_qsize (s : BusState) (t : Topic) (since : Option Nat) (rep : Bool) :
    ((subscribe s t since rep).1).qsize = s.qsize := rfl

theorem subscribe_fst_hsize (s : BusState) (t : Topic) (since : Option Nat) (rep : Bool) :
    ((subscribe s t since rep).1).hsize = s.hsize := rfl

theorem subscribe_fst_history (s : BusState) (t : Topic) (since : Option Nat) (rep : Bool)
    (t2 : Topic) : ((subscribe s t since rep).1).history t2 = s.history t2 := rfl

theorem subscribe_fst_subs_self (s : BusState) (t : Topic) (since : Option Nat) (rep : Bool) :
    ((subscribe s t since rep).1).subs t = s.subs t ++ [s.nextQ] := by
  simp [subscribe]

theorem subscribe_fst_mailboxes_new (s : BusState) (t : Topic) (k : Nat) :
    ((subscribe s t (some k) true).1).mailboxes s.nextQ =
      ((s.history t).filter (fun e => decide (k < e.meta.id))).foldl putDropOldest
        ⟨s.qsize, []⟩ := by
  simp [subscribe]

theorem subscribe_fst_mailboxes_none (s : BusState) (t : Topic) (rep : Bool) :
    ((subscribe s t none rep).1).mailboxes s.nextQ = ⟨s.qsize, []⟩ := by
  cases rep <;> simp [subscribe]

theorem unsubscribe_seq (s : BusState) (t : Topic) (qid : Nat) (t2 : Topic) :
    (unsubscribe s t qid).seq t2 = s.seq t2 := rfl

theorem runOps_ids (ops : List BusOp) : ∀ (s : BusState) (t : Topic),
    ((runOps s ops).2.filter (fun p => decide (p.1 = t))).map (fun p => p.2.meta.id) =
      List.range' (s.seq t + 1) (countPub t ops) := by
  induction ops with
  | nil => intro s t; rfl
  | cons op rest ih =>
    intro s t
    cases op with
    | pub t2 a =>
      by_cases h : t2 = t
      · subst h
        have hid : (publish s t2 a).2.meta.id = s.seq t2 + 1 := by
          rw [publish_snd, mkEnv_id]
        have hrest := ih ((publish s t2 a).1) t2
        rw [publish_fst_seq] at hrest
        simp only [runOps, countPub, List.filter_cons, List.map_cons, decide_eq_true_eq,
          eq_self_iff_true, if_true, hid, hrest]
        have hn : 1 + countPub t2 rest = countPub t2 rest + 1 := by omega
        rw [hn, List.range'_succ]
      · have hrest := ih ((publish s t2 a).1) t
        rw [publish_fst_seq_ne s t2 t a (fun hc => h hc.symm)] at hrest
        simp [runOps, countPub, h, hrest]
    | sub t2 since rep =>
      have hrest := ih ((subscribe s t2 since rep).1) t
      rw [subscribe_fst_seq] at hrest
      simp only [runOps, countPub, hrest]
    | unsub t2 q =>
      have hrest := ih (unsubscribe s t2 q) t
      rw [unsubscribe_seq] at hrest
      simp only [runOps, countPub, hrest]

end EventBus

/-! ## C3 -/

/-- C3: over any trace of bus operations starting from a fresh bus — any
publishes, subscribes and unsubscribes interleaved in any order — the N
publishes that target a given topic are assigned exactly the envelope ids
1, 2, ..., N in publish order: ids start at 1, increase by exactly 1 per
publish to that topic, and never repeat. -/
theorem C3_monotonic_ids (qsize hsize : Nat) (ops : List EventBus.BusOp) (t : Topic) :
    (((EventBus.runOps (EventBus.init qsize hsize) ops).2.filter
        (fun p => decide (p.1 = t))).map (fun p => p.2.meta.id)) =
      List.range' 1 (EventBus.countPub t ops) := by
  have h := EventBus.runOps_ids ops (EventBus.init qsize hsize) t
  simpa [EventBus.init] using h


/-! ## C1 -/

/-- C1: publish `as1` on a fresh bus, subscribe with `since_id = k` (`k`
within the assigned ids, every event with id `> k` still inside the retained
history window, i.e. `as1.length ≤ k + hsize`), then publish `as2`.  If the
subscriber's mailbox never overflows (unbounded queue, or
`as1.length + as2.length - k ≤ qsize`), then the sequence the subscriber
receives — the replay enqueued at subscribe time followed by the live
fan-out, which is exactly the mailbox content when it is not drained in
between — is precisely the published envelopes with id `> k`, each exactly
once, in strictly increasing id order `k+1, ..., as1.length + as2.length`,
with no gap or duplicate at the replay/live seam. -/
theorem C1_replay_live_exactly_once (qsize hsize : Nat) (t : Topic)
    (as1 as2 : List EventBus.PubArgs) (k : Nat)
    (r1 : BusState × List EventEnvelope) (r2 : BusState × Nat)
    (r3 : BusState × List EventEnvelope)
    (h1 : r1 = EventBus.pubMany (EventBus.init qsize hsize) t as1)
    (h2 : r2 = EventBus.subscribe r1.1 t (some k) true)
    (h3 : r3 = EventBus.pubMany r2.1 t as2)
    (hk : k ≤ as1.length)
    (hret : as1.length ≤ k + hsize)
    (hcap : qsize = 0 ∨ as1.length + as2.length - k ≤ qsize) :
    ((r3.1).mailboxes r2.2).items =
      (r1.2 ++ r3.2).filter (fun e => decide (k < e.meta.id)) ∧
    ((r3.1).mailboxes r2.2).items.map (fun e => e.meta.id) =
      List.range' (k + 1) (as1.length + as2.length - k) := by
  subst h1 h2 h3
  set s0 := EventBus.init qsize hsize with hs0
  set s1 := (EventBus.pubMany s0 t as1).1 with hs1
  have hseq1 : s1.seq t = as1.length := by
    rw [hs1, EventBus.pubMany_seq_self]
    simp [hs0, EventBus.init]
  have hhist1 : s1.history t = takeLastN hsize (EventBus.mkEnvs 0 as1) := by
    rw [hs1, EventBus.pubMany_history as1 s0 t (by simp [hs0, EventBus.init])]
    simp [hs0, EventBus.init]
  have hsubs1 : s1.subs t = [] := by
    rw [hs1, EventBus.pubMany_subs]
    simp [hs0, EventBus.init]
  have hqsize1 : s1.qsize = qsize := by
    rw [hs1, EventBus.pubMany_qsize]
    simp [hs0, EventBus.init]
  have hreplay : (s1.history t).filter (fun e => decide (k < e.meta.id)) =
      EventBus.mkEnvs k (as1.drop k) := by
    rw [hhist1]
    unfold takeLastN
    rw [EventBus.mkEnvs_length]
    rw [EventBus.mkEnvs_drop as1 0 (as1.length - hsize)]
    rw [EventBus.mkEnvs_filter_gt (as1.drop (as1.length - hsize))
        (0 + (as1.length - hsize)) k (by omega)]
    rw [List.drop_drop]
    congr 1
    congr 1
    omega
  set s2 := (EventBus.subscribe s1 t (some k) true).1 with hs2
  have hs2subs : s2.subs t = [s1.nextQ] := by
    rw [hs2, EventBus.subscribe_fst_subs_self, hsubs1]
    rfl
  have hs2seq : s2.seq t = as1.length := by
    rw [hs2, EventBus.subscribe_fst_seq, hseq1]
  have hmb2 : s2.mailboxes s1.nextQ = ⟨qsize, EventBus.mkEnvs k (as1.drop k)⟩ := by
    rw [hs2, EventBus.subscribe_fst_mailboxes_new, hreplay]
    have hcap1 : (Mailbox.mk s1.qsize ([] : List EventEnvelope)).maxsize = 0 ∨
        (Mailbox.mk s1.qsize ([] : List EventEnvelope)).items.length +
          (EventBus.mkEnvs k (as1.drop k)).length ≤
          (Mailbox.mk s1.qsize ([] : List EventEnvelope)).maxsize := by
      simp only [hqsize1, EventBus.mkEnvs_length, List.length_drop, List.length_nil]
      rcases hcap with h | h
      · exact Or.inl h
      · right; omega
    rw [EventBus.foldl_put_append _ _ hcap1]
    simp [hqsize1]
  have hmb3 : ((EventBus.pubMany s2 t as2).1).mailboxes s1.nextQ =
      ⟨qsize, EventBus.mkEnvs k (as1.drop k) ++ EventBus.mkEnvs as1.length as2⟩ := by
    rw [EventBus.pubMany_mailbox_single as2 s2 t s1.nextQ hs2subs, hs2seq, hmb2]
    have hcap2 : (Mailbox.mk qsize (EventBus.mkEnvs k (as1.drop k))).maxsize = 0 ∨
        (Mailbox.mk qsize (EventBus.mkEnvs k (as1.drop k))).items.length +
          (EventBus.mkEnvs as1.length as2).length ≤
          (Mailbox.mk qsize (EventBus.mkEnvs k (as1.drop k))).maxsize := by
      simp only [EventBus.mkEnvs_length, List.length_drop]
      rcases hcap with h | h
      · exact Or.inl h
      · right; omega
    rw [EventBus.foldl_put_append _ _ hcap2]
  have hjoin : EventBus.mkEnvs k (as1.drop k ++ as2) =
      EventBus.mkEnvs k (as1.drop k) ++ EventBus.mkEnvs as1.length as2 := by
    rw [EventBus.mkEnvs_append]
    have h : k + (as1.drop k).length = as1.length := by
      rw [List.length_drop]; omega
    rw [h]
  have hr1 : (EventBus.pubMany s0 t as1).2 = EventBus.mkEnvs 0 as1 := by
    rw [EventBus.pubMany_envs]
    simp [hs0, EventBus.init]
  have hr3 : (EventBus.pubMany s2 t as2).2 = EventBus.mkEnvs as1.length as2 := by
    rw [EventBus.pubMany_envs, hs2seq]
  have hfilter : (EventBus.mkEnvs 0 as1 ++ EventBus.mkEnvs as1.length as2).filter
      (fun e => decide (k < e.meta.id)) = EventBus.mkEnvs k (as1.drop k ++ as2) := by
    have hall : EventBus.mkEnvs 0 as1 ++ EventBus.mkEnvs as1.length as2 =
        EventBus.mkEnvs 0 (as1 ++ as2) := by
      rw [EventBus.mkEnvs_append]
      have h : (0 : Nat) + as1.length = as1.length := by omega
      rw [h]
    rw [hall, EventBus.mkEnvs_filter_gt _ _ _ (Nat.zero_le k), Nat.sub_zero,
        List.drop_append_of_le_length hk]
  rw [EventBus.subscribe_snd, hmb3, hr1, hr3, hfilter, hjoin]
  constructor
  · rfl
  · show (EventBus.mkEnvs k (as1.drop k) ++ EventBus.mkEnvs as1.length as2).map
        (fun e => e.meta.id) = _
    rw [← hjoin, EventBus.mkEnvs_map_id]
    have h : (as1.drop k ++ as2).length = as1.length + as2.length - k := by
      rw [List.length_append, List.length_drop]
      omega
    rw [h]

/-- Witness for C1 at a concrete run: two publishes, subscribe with
`since_id = 1`, one more publish; the mailbox holds exactly the events with
ids 2 and 3 in order. -/
theorem C1_witness :
    (c1r1 = EventBus.pubMany (EventBus.init 2 2) "t" [pargDemo "a", pargDemo "b"] ∧
     c1r2 = EventBus.subscribe c1r1.1 "t" (some 1) true ∧
     c1r3 = EventBus.pubMany c1r2.1 "t" [pargDemo "c"] ∧
     1 ≤ ([pargDemo "a", pargDemo "b"] : List EventBus.PubArgs).length ∧
     ([pargDemo "a", pargDemo "b"] : List EventBus.PubArgs).length ≤ 1 + 2 ∧
     ((2 : Nat) = 0 ∨
       ([pargDemo "a", pargDemo "b"] : List EventBus.PubArgs).length +
         ([pargDemo "c"] : List EventBus.PubArgs).length - 1 ≤ 2)) ∧
    ((c1r3.1.mailboxes c1r2.2).items =
        (c1r1.2 ++ c1r3.2).filter (fun e => decide (1 < e.meta.id)) ∧
      (c1r3.1.mailboxes c1r2.2).items.map (fun e => e.meta.id) =
        List.range' (1 + 1)
          (([pargDemo "a", pargDemo "b"] : List EventBus.PubArgs).length +
            ([pargDemo "c"] : List EventBus.PubArgs).length - 1)) :=
  ⟨⟨rfl, rfl, rfl, by decide, by decide, by decide⟩,
   C1_replay_live_exactly_once 2 2 "t" [pargDemo "a", pargDemo "b"] [pargDemo "c"] 1
     c1r1 c1r2 c1r3 rfl rfl rfl (by decide) (by decide) (by decide)⟩

/-! ## C7 -/

/-- C7: subscribe a fresh mailbox of bounded capacity `qsize > 0`, then
publish more than `qsize` events to the topic while the subscriber never
drains; afterwards the mailbox holds exactly the `qsize` most recently
published envelopes, in publish order, with the oldest silently dropped
(the publisher itself only ever runs the non-blocking
`get_nowait`/`put_nowait` pair, so it is never blocked or delayed). -/
theorem C7_drop_oldest_pressure (qsize hsize : Nat) (t : Topic) (as2 : List EventBus.PubArgs)
    (r2 : BusState × Nat) (r3 : BusState × List EventEnvelope)
    (h2 : r2 = EventBus.subscribe (EventBus.init qsize hsize) t none true)
    (h3 : r3 = EventBus.pubMany r2.1 t as2)
    (h0 : 0 < qsize) (hover : qsize < as2.length) :
    ((r3.1).mailboxes r2.2).items = takeLastN qsize r3.2 ∧
    ((r3.1).mailboxes r2.2).items.length = qsize ∧
    ((r3.1).mailboxes r2.2).items.map (fun e => e.meta.id) =
      List.range' (as2.length - qsize + 1) qsize := by
  subst h2 h3
  set s0 := EventBus.init qsize hsize with hs0
  set s2 := (EventBus.subscribe s0 t none true).1 with hs2
  have hsubs : s2.subs t = [0] := by
    rw [hs2, EventBus.subscribe_fst_subs_self]
    simp [hs0, EventBus.init]
  have hseq : s2.seq t = 0 := by
    rw [hs2, EventBus.subscribe_fst_seq]
    simp [hs0, EventBus.init]
  have hmb : s2.mailboxes 0 = ⟨qsize, []⟩ := by
    rw [hs2]
    have h := EventBus.subscribe_fst_mailboxes_none s0 t true
    simpa [hs0, EventBus.init] using h
  have hlen : (EventBus.mkEnvs 0 as2).length = as2.length := EventBus.mkEnvs_length as2 0
  have hfold := EventBus.foldl_put_takeLast (EventBus.mkEnvs 0 as2)
      (⟨qsize, []⟩ : Mailbox) h0 (by simp)
  have hmb3 : ((EventBus.pubMany s2 t as2).1).mailboxes 0 =
      ⟨qsize, takeLastN qsize (EventBus.mkEnvs 0 as2)⟩ := by
    rw [EventBus.pubMany_mailbox_single as2 s2 t 0 hsubs, hseq, hmb, hfold]
    simp
  have hr3 : (EventBus.pubMany s2 t as2).2 = EventBus.mkEnvs 0 as2 := by
    rw [EventBus.pubMany_envs, hseq]
  have hnq : (EventBus.subscribe s0 t none true).2 = 0 := rfl
  rw [hnq, hmb3, hr3]
  refine ⟨rfl, ?_, ?_⟩
  · show (takeLastN qsize (EventBus.mkEnvs 0 as2)).length = qsize
    unfold takeLastN
    rw [List.length_drop, hlen]
    omega
  · show (takeLastN qsize (EventBus.mkEnvs 0 as2)).map (fun e => e.meta.id) = _
    unfold takeLastN
    rw [hlen, EventBus.mkEnvs_drop as2 0 (as2.length - qsize), EventBus.mkEnvs_map_id]
    have h : (as2.drop (as2.length - qsize)).length = qsize := by
      rw [List.length_drop]; omega
    rw [h]
    have h2 : (0 : Nat) + (as2.length - qsize) + 1 = as2.length - qsize + 1 := by omega
    rw [h2]

/-- Witness for C7 at a concrete run: capacity 1, two publishes, the mailbox
holds only the envelope with id 2. -/
theorem C7_witness :
    (c7r2 = EventBus.subscribe (EventBus.init 1 4) "t" none true ∧
     c7r3 = EventBus.pubMany c7r2.1 "t" [pargDemo "a", pargDemo "b"] ∧
     0 < 1 ∧ 1 < ([pargDemo "a", pargDemo "b"] : List EventBus.PubArgs).length) ∧
    ((c7r3.1.mailboxes c7r2.2).items = takeLastN 1 c7r3.2 ∧
      (c7r3.1.mailboxes c7r2.2).items.length = 1 ∧
      (c7r3.1.mailboxes c7r2.2).items.map (fun e => e.meta.id) =
        List.range' (([pargDemo "a", pargDemo "b"] : List EventBus.PubArgs).length - 1 + 1) 1) :=
  ⟨⟨rfl, rfl, by decide, by decide⟩,
   C7_drop_oldest_pressure 1 4 "t" [pargDemo "a", pargDemo "b"] c7r2 c7r3 rfl rfl
     (by decide) (by decide)⟩

/-! ## Runner trace classification -/

theorem statE_mem {env : Env} {s : String} {e : Effect} (h : e ∈ (statE env s).1) :
    e = .statusWrite s := by
  unfold statE at h
  cases h1 : env.storeStatus s <;> rw [h1] at h <;> simp_all

theorem addMsgE_mem {env : Env} {role text : String} {e : Effect}
    (h : e ∈ (addMsgE env role text).1) : e = .storeMessage role text := by
  unfold addMsgE at h
  cases h1 : env.storeMessage role text <;> rw [h1] at h <;> simp_all

theorem emitE_mem {env : Env} {ty : String} {d : JVal} {e : Effect}
    (h : e ∈ (emitE env ty d).1) : e = .storeEvent ty ∨ e = .published ty d := by
  unfold emitE at h
  cases h1 : env.storeEvent ty <;> rw [h1] at h
  · simp_all
  · cases h2 : env.busPublish ty <;> rw [h2] at h <;> simp_all

theorem eseq_mem {a b : ERes} {e : Effect} (h : e ∈ (eseq a b).1) : e ∈ a.1 ∨ e ∈ b.1 := by
  unfold eseq at h
  rcases a with ⟨es, f⟩
  cases f <;> simp_all

theorem execToolE_mem {env : Env} {reg : ToolRegistry} {cwd : String} {call : ToolCall}
    {e : Effect} (h : e ∈ (execToolE env reg cwd call).1) :
    e = .storeEvent "tool.result" ∨ ∃ d, e = .published "tool.result" d := by
  rcases emitE_mem h with h2 | h2
  · exact Or.inl h2
  · exact Or.inr ⟨_, h2⟩

theorem eforExec_mem {env : Env} {reg : ToolRegistry} {cwd : String} {e : Effect} :
    ∀ {cs : List ToolCall}, e ∈ (eforExec env reg cwd cs).1 →
    e = .storeEvent "tool.result" ∨ ∃ d, e = .published "tool.result" d := by
  intro cs
  induction cs with
  | nil => intro h; simp [eforExec] at h
  | cons c cs ih =>
    intro h
    rcases eseq_mem (by simpa [eforExec] using h) with h2 | h2
    · exact execToolE_mem h2
    · exact ih h2

theorem effTyOk_statE {env : Env} {s : String} {e : Effect} (h : e ∈ (statE env s).1) :
    effTyOk e := by
  rw [statE_mem h]; trivial

theorem effTyOk_addMsgE {env : Env} {role text : String} {e : Effect}
    (h : e ∈ (addMsgE env role text).1) : effTyOk e := by
  rw [addMsgE_mem h]; trivial

theorem effTyOk_emitE {env : Env} {ty : String} {d : JVal} {e : Effect}
    (h : e ∈ (emitE env ty d).1) (hty : ty ∈ runnerPublishTys) : effTyOk e := by
  rcases emitE_mem h with h2 | h2 <;> rw [h2] <;> exact hty

theorem effTyOk_eforExec {env : Env} {reg : ToolRegistry} {cwd : String}
    {cs : List ToolCall} {e : Effect} (h : e ∈ (eforExec env reg cwd cs).1) : effTyOk e := by
  rcases eforExec_mem h with h2 | ⟨d, h2⟩ <;> rw [h2] <;> simp [runnerPublishTys, effTyOk]

theorem effTyOk_execToolE {env : Env} {reg : ToolRegistry} {cwd : String} {call : ToolCall}
    {e : Effect} (h : e ∈ (execToolE env reg cwd call).1) : effTyOk e := by
  rcases execToolE_mem h with h2 | ⟨d, h2⟩ <;> rw [h2] <;> simp [runnerPublishTys, effTyOk]

theorem decisionsGo_exit {env : Env} {reg : ToolRegistry} {cwd : String} {cancel : Bool}
    {ds : List ToolDecision} {pending : List (String × ToolCall)}
    (h : (pending.isEmpty || cancel) = true) :
    decisionsGo env reg cwd cancel ds pending = ⟨[], none, pending, ds⟩ := by
  conv_lhs => unfold decisionsGo
  simp only [h, if_true]

theorem decisionsGo_blocked {env : Env} {reg : ToolRegistry} {cwd : String} {cancel : Bool}
    {pending : List (String × ToolCall)} (h : (pending.isEmpty || cancel) = false) :
    decisionsGo env reg cwd cancel [] pending = ⟨[], some .blocked, pending, []⟩ := by
  conv_lhs => unfold decisionsGo
  simp only [h, Bool.false_eq_true, if_false]

theorem decisionsGo_skip {env : Env} {reg : ToolRegistry} {cwd : String} {cancel : Bool}
    {d : ToolDecision} {rest : List ToolDecision} {pending : List (String × ToolCall)}
    (h : (pending.isEmpty || cancel) = false)
    (hget : dictGet pending d.call_id = none) :
    decisionsGo env reg cwd cancel (d :: rest) pending =
      decisionsGo env reg cwd cancel rest pending := by
  conv_lhs => unfold decisionsGo
  simp only [h, Bool.false_eq_true, if_false, hget]

theorem decisionsGo_hit_fail {env : Env} {reg : ToolRegistry} {cwd : String} {cancel : Bool}
    {d : ToolDecision} {rest : List ToolDecision} {pending : List (String × ToolCall)}
    {call : ToolCall} {f : Fail}
    (h : (pending.isEmpty || cancel) = false)
    (hget : dictGet pending d.call_id = some call)
    (her : (decisionEffects env reg cwd call d).2 = some f) :
    decisionsGo env reg cwd cancel (d :: rest) pending =
      ⟨(decisionEffects env reg cwd call d).1, some f, pending, rest⟩ := by
  conv_lhs => unfold decisionsGo
  simp only [h, Bool.false_eq_true, if_false, hget, her]

theorem decisionsGo_hit_ok {env : Env} {reg : ToolRegistry} {cwd : String} {cancel : Bool}
    {d : ToolDecision} {rest : List ToolDecision} {pending : List (String × ToolCall)}
    {call : ToolCall}
    (h : (pending.isEmpty || cancel) = false)
    (hget : dictGet pending d.call_id = some call)
    (her : (decisionEffects env reg cwd call d).2 = none) :
    decisionsGo env reg cwd cancel (d :: rest) pending =
      ⟨(decisionEffects env reg cwd call d).1 ++
         (decisionsGo env reg cwd cancel rest (dictPop pending call.id)).trace,
       (decisionsGo env reg cwd cancel rest (dictPop pending call.id)).fail,
       (decisionsGo env reg cwd cancel rest (dictPop pending call.id)).pending,
       (decisionsGo env reg cwd cancel rest (dictPop pending call.id)).decisions⟩ := by
  conv_lhs => unfold decisionsGo
  simp only [h, Bool.false_eq_true, if_false, hget, her]

theorem decisionEffects_mem {env : Env} {reg : ToolRegistry} {cwd : String} {call : ToolCall}
    {d : ToolDecision} {e : Effect} (h : e ∈ (decisionEffects env reg cwd call d).1) :
    effTyOk e := by
  unfold decisionEffects at h
  split at h
  · rcases eseq_mem h with h2 | h2
    · exact effTyOk_emitE h2 (by simp [runnerPublishTys])
    · exact effTyOk_execToolE h2
  · exact effTyOk_emitE h (by simp [runnerPublishTys])

theorem decisionsGo_tyOk (env : Env) (reg : ToolRegistry) (cwd : String) (cancel : Bool) :
    ∀ (ds : List ToolDecision) (pending : List (String × ToolCall)) (e : Effect),
    e ∈ (decisionsGo env reg cwd cancel ds pending).trace → effTyOk e := by
  intro ds
  induction ds with
  | nil =>
    intro pending e h
    by_cases hc : (pending.isEmpty || cancel) = true
    · rw [decisionsGo_exit hc] at h; simp at h
    · rw [decisionsGo_blocked (by simpa using hc)] at h; simp at h
  | cons d rest ih =>
    intro pending e h
    by_cases hc : (pending.isEmpty || cancel) = true
    · rw [decisionsGo_exit hc] at h; simp at h
    · have hc2 : (pending.isEmpty || cancel) = false := by simpa using hc
      cases hget : dictGet pending d.call_id with
      | none =>
        rw [decisionsGo_skip hc2 hget] at h
        exact ih _ _ h
      | some call =>
        cases her : (decisionEffects env reg cwd call d).2 with
        | some f =>
          rw [decisionsGo_hit_fail hc2 hget her] at h
          exact decisionEffects_mem (by simpa using h)
        | none =>
          rw [decisionsGo_hit_ok hc2 hget her] at h
          rcases List.mem_append.mp (by simpa using h) with h2 | h2
          · exact decisionEffects_mem h2
          · exact ih _ _ h2

theorem handleDecisionsF_tyOk (env : Env) (reg : ToolRegistry) (cwd : String) (cancel : Bool)
    (ds : List ToolDecision) (pending : List (String × ToolCall)) (e : Effect)
    (h : e ∈ (handleDecisionsF env reg cwd cancel ds pending).trace) : effTyOk e := by
  simp only [handleDecisionsF] at h
  split at h
  · exact decisionsGo_tyOk env reg cwd cancel ds pending e h
  · split at h
    · rcases List.mem_append.mp (by simpa using h) with h2 | h2
      · exact decisionsGo_tyOk env reg cwd cancel ds pending e h2
      · rcases eseq_mem h2 with h3 | h3
        · exact effTyOk_statE h3
        · exact effTyOk_emitE h3 (by simp [runnerPublishTys])
    · exact decisionsGo_tyOk env reg cwd cancel ds pending e h

theorem loopGo_tyOk (env : Env) (reg : ToolRegistry) (cwd : String) (auto cancel : Bool) :
    ∀ (fuel step : Nat) (pending : List (String × ToolCall)) (ds : List ToolDecision)
      (e : Effect),
    e ∈ (loopGo env reg cwd auto cancel fuel step pending ds).trace → effTyOk e := by
  intro fuel
  induction fuel with
  | zero => intro step pending ds e h; simp [loopGo] at h
  | succ fuel ih =>
    intro step pending ds e h
    simp only [loopGo] at h
    split at h
    · simp at h
    · split at h
      · exact effTyOk_emitE (by simpa using h) (by simp [runnerPublishTys])
      · split at h
        · exact effTyOk_emitE (by simpa using h) (by simp [runnerPublishTys])
        · split at h
          · split at h
            · rcases List.mem_append.mp (by simpa using h) with h2 | h2
              · exact effTyOk_emitE h2 (by simp [runnerPublishTys])
              · exact ih _ _ _ _ h2
            · split at h
              · rcases List.mem_append.mp (by simpa using h) with h2 | h2
                · exact effTyOk_emitE h2 (by simp [runnerPublishTys])
                · exact ih _ _ _ _ h2
              · rcases List.mem_append.mp (by simpa using h) with h2 | h2
                · exact effTyOk_emitE h2 (by simp [runnerPublishTys])
                · rcases eseq_mem h2 with h3 | h3
                  · exact effTyOk_addMsgE h3
                  · exact effTyOk_emitE h3 (by simp [runnerPublishTys])
          · split at h
            · rcases List.mem_append.mp (by simpa using h) with h2 | h2
              · exact effTyOk_emitE h2 (by simp [runnerPublishTys])
              · exact effTyOk_emitE h2 (by simp [runnerPublishTys])
            · split at h
              · split at h
                · simp only [List.mem_append] at h
                  rcases (by simpa using h : (e ∈ _ ∨ e ∈ _) ∨ e ∈ _) with (h2 | h2) | h2
                  · exact effTyOk_emitE h2 (by simp [runnerPublishTys])
                  · exact effTyOk_emitE h2 (by simp [runnerPublishTys])
                  · exact effTyOk_eforExec h2
                · simp only [List.mem_append] at h
                  rcases (by simpa using h :
                      ((e ∈ _ ∨ e ∈ _) ∨ e ∈ _) ∨ e ∈ _) with ((h2 | h2) | h2) | h2
                  · exact effTyOk_emitE h2 (by simp [runnerPublishTys])
                  · exact effTyOk_emitE h2 (by simp [runnerPublishTys])
                  · exact effTyOk_eforExec h2
                  · exact ih _ _ _ _ h2
              · split at h
                · simp only [List.mem_append] at h
                  rcases (by simpa using h : (e ∈ _ ∨ e ∈ _) ∨ e ∈ _) with (h2 | h2) | h2
                  · exact effTyOk_emitE h2 (by simp [runnerPublishTys])
                  · exact effTyOk_emitE h2 (by simp [runnerPublishTys])
                  · rcases eseq_mem h2 with h3 | h3
                    · exact effTyOk_statE h3
                    · exact effTyOk_emitE h3 (by simp [runnerPublishTys])
                · split at h
                  · simp only [List.mem_append] at h
                    rcases (by simpa using h :
                        ((e ∈ _ ∨ e ∈ _) ∨ e ∈ _) ∨ e ∈ _) with ((h2 | h2) | h2) | h2
                    · exact effTyOk_emitE h2 (by simp [runnerPublishTys])
                    · exact effTyOk_emitE h2 (by simp [runnerPublishTys])
                    · rcases eseq_mem h2 with h3 | h3
                      · exact effTyOk_statE h3
                      · exact effTyOk_emitE h3 (by simp [runnerPublishTys])
                    · exact handleDecisionsF_tyOk env reg cwd cancel ds _ e h2
                  · simp only [List.mem_append] at h
                    rcases (by simpa using h :
                        (((e ∈ _ ∨ e ∈ _) ∨ e ∈ _) ∨ e ∈ _) ∨ e ∈ _) with
                      (((h2 | h2) | h2) | h2) | h2
                    · exact effTyOk_emitE h2 (by simp [runnerPublishTys])
                    · exact effTyOk_emitE h2 (by simp [runnerPublishTys])
                    · rcases eseq_mem h2 with h3 | h3
                      · exact effTyOk_statE h3
                      · exact effTyOk_emitE h3 (by simp [runnerPublishTys])
                    · exact handleDecisionsF_tyOk env reg cwd cancel ds _ e h2
                    · exact ih _ _ _ _ h2

theorem runBody_tyOk (P : SessionRunner) (env : Env) (cancel : Bool) (ut : String)
    (ds : List ToolDecision) (e : Effect)
    (h : e ∈ (runBody P env cancel ut ds).trace) : effTyOk e := by
  simp only [runBody] at h
  split at h
  · rcases eseq_mem (by simpa using h) with h2 | h2
    · exact effTyOk_statE h2
    · exact effTyOk_emitE h2 (by simp [runnerPublishTys])
  · split at h
    · rcases List.mem_append.mp (by simpa using h) with h2 | h2
      · rcases eseq_mem h2 with h3 | h3
        · exact effTyOk_statE h3
        · exact effTyOk_emitE h3 (by simp [runnerPublishTys])
      · rcases eseq_mem h2 with h3 | h3
        · exact effTyOk_addMsgE h3
        · exact effTyOk_emitE h3 (by simp [runnerPublishTys])
    · split at h
      · simp only [List.mem_append] at h
        rcases (by simpa using h : (e ∈ _ ∨ e ∈ _) ∨ e ∈ _) with (h2 | h2) | h2
        · rcases eseq_mem h2 with h3 | h3
          · exact effTyOk_statE h3
          · exact effTyOk_emitE h3 (by simp [runnerPublishTys])
        · rcases eseq_mem h2 with h3 | h3
          · exact effTyOk_addMsgE h3
          · exact effTyOk_emitE h3 (by simp [runnerPublishTys])
        · exact loopGo_tyOk env P.registry P.cwd P.auto_approve cancel _ _ _ _ e h2
      · simp only [List.mem_append] at h
        rcases (by simpa using h : ((e ∈ _ ∨ e ∈ _) ∨ e ∈ _) ∨ e ∈ _) with
          ((h2 | h2) | h2) | h2
        · rcases eseq_mem h2 with h3 | h3
          · exact effTyOk_statE h3
          · exact effTyOk_emitE h3 (by simp [runnerPublishTys])
        · rcases eseq_mem h2 with h3 | h3
          · exact effTyOk_addMsgE h3
          · exact effTyOk_emitE h3 (by simp [runnerPublishTys])
        · exact loopGo_tyOk env P.registry P.cwd P.auto_approve cancel _ _ _ _ e h2
        · split at h2
          · rcases eseq_mem h2 with h3 | h3
            · exact effTyOk_statE h3
            · exact effTyOk_emitE h3 (by simp [runnerPublishTys])
          · rcases eseq_mem h2 with h3 | h3
            · exact effTyOk_statE h3
            · exact effTyOk_emitE h3 (by simp [runnerPublishTys])

theorem runBody_no_runError (P : SessionRunner) (env : Env) (cancel : Bool) (ut : String)
    (ds : List ToolDecision) :
    ((runBody P env cancel ut ds).trace).countP (isPubOf "run.error") = 0 := by
  rw [List.countP_eq_zero]
  intro e he
  have hty := runBody_tyOk P env cancel ut ds e he
  cases e with
  | statusWrite s => simp [isPubOf]
  | storeMessage r t2 => simp [isPubOf]
  | storeEvent ty => simp [isPubOf]
  | published ty d =>
    intro hcontra
    simp only [isPubOf, decide_eq_true_eq] at hcontra
    subst hcontra
    simp [effTyOk, runnerPublishTys] at hty

theorem run_eq_body_of_fail_none {P : SessionRunner} {env : Env} {cancel : Bool} {ut : String}
    {ds : List ToolDecision} (hb : (runBody P env cancel ut ds).fail = none) :
    SessionRunner.run P env cancel ut ds = runBody P env cancel ut ds := by
  simp only [SessionRunner.run, hb]

theorem run_eq_body_of_blocked {P : SessionRunner} {env : Env} {cancel : Bool} {ut : String}
    {ds : List ToolDecision} (hb : (runBody P env cancel ut ds).fail = some .blocked) :
    SessionRunner.run P env cancel ut ds = runBody P env cancel ut ds := by
  simp only [SessionRunner.run, hb]

theorem run_of_exc {P : SessionRunner} {env : Env} {cancel : Bool} {ut : String}
    {ds : List ToolDecision} {msg : String}
    (hb : (runBody P env cancel ut ds).fail = some (.exc msg)) :
    SessionRunner.run P env cancel ut ds =
      ⟨(runBody P env cancel ut ds).trace ++
         (eseq (statE env "failed")
           (emitE env "run.error" (.obj [("error", .s msg)]))).1,
       (eseq (statE env "failed")
         (emitE env "run.error" (.obj [("error", .s msg)]))).2,
       (runBody P env cancel ut ds).pending, (runBody P env cancel ut ds).decisions,
       (runBody P env cancel ut ds).step⟩ := by
  simp only [SessionRunner.run, hb]

/-! ## C5 -/

/-- C5 counterexample: with the reasoning step raising `boom` inside the
loop and the store raising on the handler's own `failed` status write, the
exception escapes `SessionRunner.run` to the caller, the status is never set
to `failed`, and no `run.error` event is published — refuting "no exception
... propagates to the caller" and "any such exception causes the run status
to be set to 'failed' and exactly one run.error event". -/
theorem C5_counterexample :
    (SessionRunner.run P5c envC5 false "hi" []).fail = some (.exc "cannot persist") ∧
    ((SessionRunner.run P5c envC5 false "hi" []).trace).countP (isStatusW "failed") = 0 ∧
    ((SessionRunner.run P5c envC5 false "hi" []).trace).countP (isPubOf "run.error") = 0 := by
  refine ⟨by rfl, by rfl, by rfl⟩

/-- C5 (amended): provided the failure path's own external calls succeed
(the `failed` status write, and the `run.error` store append and bus
publish), no exception raised inside `run` — from the reasoning step, tool
execution, storage or the bus — propagates to the caller of `run()`: any
such exception makes the run end with the `failed` status written and
exactly one `run.error` publication carrying the stringified error. -/
theorem C5_amended_no_escape (P : SessionRunner) (env : Env) (cancel : Bool) (ut : String)
    (ds : List ToolDecision)
    (h1 : env.storeStatus "failed" = .ok ())
    (h2 : env.storeEvent "run.error" = .ok ())
    (h3 : env.busPublish "run.error" = .ok ()) :
    (∀ msg, (SessionRunner.run P env cancel ut ds).fail ≠ some (.exc msg)) ∧
    (∀ msg, (runBody P env cancel ut ds).fail = some (.exc msg) →
      SessionRunner.run P env cancel ut ds =
        ⟨(runBody P env cancel ut ds).trace ++
           [.statusWrite "failed", .storeEvent "run.error",
            .published "run.error" (.obj [("error", .s msg)])],
         none, (runBody P env cancel ut ds).pending, (runBody P env cancel ut ds).decisions,
         (runBody P env cancel ut ds).step⟩ ∧
      ((SessionRunner.run P env cancel ut ds).trace).countP (isPubOf "run.error") = 1) := by
  have hh : ∀ msg, eseq (statE env "failed")
      (emitE env "run.error" (.obj [("error", .s msg)])) =
      ([.statusWrite "failed", .storeEvent "run.error",
        .published "run.error" (.obj [("error", .s msg)])], none) := by
    intro msg
    simp [eseq, statE, emitE, h1, h2, h3]
  have hrun : ∀ msg, (runBody P env cancel ut ds).fail = some (.exc msg) →
      SessionRunner.run P env cancel ut ds =
        ⟨(runBody P env cancel ut ds).trace ++
           [.statusWrite "failed", .storeEvent "run.error",
            .published "run.error" (.obj [("error", .s msg)])],
         none, (runBody P env cancel ut ds).pending, (runBody P env cancel ut ds).decisions,
         (runBody P env cancel ut ds).step⟩ := by
    intro msg hb
    rw [run_of_exc hb, hh msg]
  constructor
  · intro msg hc
    cases hb : (runBody P env cancel ut ds).fail with
    | none => rw [run_eq_body_of_fail_none hb, hb] at hc; exact Option.noConfusion hc
    | some f =>
      cases f with
      | blocked =>
        rw [run_eq_body_of_blocked hb, hb] at hc
        simp at hc
      | exc m =>
        rw [hrun m hb] at hc
        simp at hc
  · intro msg hb
    refine ⟨hrun msg hb, ?_⟩
    rw [hrun msg hb]
    show ((runBody P env cancel ut ds).trace ++ _).countP (isPubOf "run.error") = 1
    rw [List.countP_append, runBody_no_runError]
    simp [isPubOf]

/-- Witness for C5's amended theorem: the reasoning step raises `boom`, the
handler succeeds, the run returns normally with one `run.error`. -/
theorem C5_amended_witness :
    (envC5w.storeStatus "failed" = .ok () ∧ envC5w.storeEvent "run.error" = .ok () ∧
     envC5w.busPublish "run.error" = .ok () ∧
     (runBody P5c envC5w false "hi" []).fail = some (.exc "boom")) ∧
    (SessionRunner.run P5c envC5w false "hi" [] =
      ⟨(runBody P5c envC5w false "hi" []).trace ++
         [.statusWrite "failed", .storeEvent "run.error",
          .published "run.error" (.obj [("error", .s "boom")])],
       none, (runBody P5c envC5w false "hi" []).pending,
       (runBody P5c envC5w false "hi" []).decisions,
       (runBody P5c envC5w false "hi" []).step⟩ ∧
     ((SessionRunner.run P5c envC5w false "hi" []).trace).countP (isPubOf "run.error") = 1) :=
  ⟨⟨rfl, rfl, rfl, rfl⟩,
   (C5_amended_no_escape P5c envC5w false "hi" [] rfl rfl rfl).2 "boom" rfl⟩

/-! ## C4 -/

theorem loopGo_step_le (env : Env) (reg : ToolRegistry) (cwd : String) (auto cancel : Bool) :
    ∀ (fuel step : Nat) (pending : List (String × ToolCall)) (ds : List ToolDecision),
    (loopGo env reg cwd auto cancel fuel step pending ds).step ≤ step + fuel := by
  intro fuel
  induction fuel with
  | zero => intro step pending ds; simp [loopGo]
  | succ fuel ih =>
    intro step pending ds
    simp only [loopGo]
    repeat' split
    all_goals dsimp only
    all_goals try omega
    all_goals exact le_trans (ih _ _ _) (by omega)

theorem runBody_step_le (P : SessionRunner) (env : Env) (cancel : Bool) (ut : String)
    (ds : List ToolDecision) : (runBody P env cancel ut ds).step ≤ P.max_steps := by
  simp only [runBody]
  repeat' split
  all_goals dsimp only
  all_goals try omega
  all_goals
    exact le_trans (loopGo_step_le env P.registry P.cwd P.auto_approve cancel P.max_steps 0 [] ds)
      (by omega)

theorem run_step_le (P : SessionRunner) (env : Env) (cancel : Bool) (ut : String)
    (ds : List ToolDecision) : (SessionRunner.run P env cancel ut ds).step ≤ P.max_steps := by
  cases hb : (runBody P env cancel ut ds).fail with
  | none => rw [run_eq_body_of_fail_none hb]; exact runBody_step_le P env cancel ut ds
  | some f =>
    cases f with
    | blocked => rw [run_eq_body_of_blocked hb]; exact runBody_step_le P env cancel ut ds
    | exc m =>
      rw [run_of_exc hb]
      dsimp only
      exact runBody_step_le P env cancel ut ds

theorem loopGo_noop (env : Env) (reg : ToolRegistry) (cwd : String) (auto : Bool)
    (hok : EnvOk env)
    (hagent : ∀ n, ∃ st, env.agentStep n = .ok st ∧ st.pending_tools.getD [] = [] ∧
      st.final.getD "" = "") :
    ∀ (fuel step : Nat) (pending : List (String × ToolCall)) (ds : List ToolDecision),
    loopGo env reg cwd auto false fuel step pending ds =
      ⟨noopTrace step fuel, none, pending, ds, step + fuel⟩ := by
  intro fuel
  induction fuel with
  | zero => intro step pending ds; simp [loopGo, noopTrace]
  | succ fuel ih =>
    intro step pending ds
    obtain ⟨st, hst, hpt, hfin⟩ := hagent (step + 1)
    have hemit : emitE env "run.step.started" (.obj [("step", .n (step + 1))]) =
        ([.storeEvent "run.step.started",
          .published "run.step.started" (.obj [("step", .n (step + 1))])], none) := by
      simp [emitE, hok.2.2.1 _, hok.2.2.2 _]
    simp only [loopGo, Bool.false_eq_true, if_false, hemit, hst, hpt, List.isEmpty_nil,
      if_true]
    cases hf : st.final with
    | none =>
      simp only []
      rw [ih (step + 1) pending ds]
      simp only [noopTrace, List.cons_append, List.nil_append, LoopOut.mk.injEq,
        and_true, true_and]
      omega
    | some msg =>
      have hm : msg = "" := by simpa [hf] using hfin
      subst hm
      have hie : ("" : String).isEmpty = true := rfl
      simp only [hie, if_true]
      rw [ih (step + 1) pending ds]
      simp only [noopTrace, List.cons_append, List.nil_append, LoopOut.mk.injEq,
        and_true, true_and]
      omega

theorem runBody_noop (P : SessionRunner) (env : Env) (ut : String) (ds : List ToolDecision)
    (hok : EnvOk env)
    (hagent : ∀ n, ∃ st, env.agentStep n = .ok st ∧ st.pending_tools.getD [] = [] ∧
      st.final.getD "" = "") :
    runBody P env false ut ds =
      ⟨startTrace P ut ++ noopTrace 0 P.max_steps ++
         [.statusWrite "completed", .storeEvent "run.completed",
          .published "run.completed" (.obj [("steps_used", .n P.max_steps)])],
       none, [], ds, P.max_steps⟩ := by
  have he1 : eseq (statE env "running") (emitE env "run.started" (runStartedData P)) =
      ([.statusWrite "running", .storeEvent "run.started",
        .published "run.started" (runStartedData P)], none) := by
    simp [eseq, statE, emitE, hok.1 _, hok.2.2.1 _, hok.2.2.2 _]
  have he2 : eseq (addMsgE env "user" ut)
      (emitE env "assistant.user_message" (.obj [("text", .s ut)])) =
      ([.storeMessage "user" ut, .storeEvent "assistant.user_message",
        .published "assistant.user_message" (.obj [("text", .s ut)])], none) := by
    simp [eseq, addMsgE, emitE, hok.2.1 _ _, hok.2.2.1 _, hok.2.2.2 _]
  have hzero : (0 : Nat) + P.max_steps = P.max_steps := by omega
  have hloop := loopGo_noop env P.registry P.cwd P.auto_approve hok hagent P.max_steps 0 [] ds
  rw [hzero] at hloop
  have he3 : eseq (statE env "completed")
      (emitE env "run.completed" (.obj [("steps_used", .n P.max_steps)])) =
      ([.statusWrite "completed", .storeEvent "run.completed",
        .published "run.completed" (.obj [("steps_used", .n P.max_steps)])], none) := by
    simp [eseq, statE, emitE, hok.1 _, hok.2.2.1 _, hok.2.2.2 _]
  simp only [runBody, he1, he2, hloop, Bool.false_eq_true, if_false, he3]
  simp [startTrace]

/-- C4: (a) in every run, whatever the environment, cancellation flag and
decision stream do, the final value of the `step` counter — which rises by
exactly 1 per iteration from 0 — is at most `max_steps`, so the loop
executes at most `max_steps` steps; (b) if the step budget is exhausted with
no final answer and no cancellation (every agent step returns neither tools
nor a truthy final, and the external calls succeed), the run exits the loop
and is recorded and reported with terminal status `completed` and one
`run.completed` event carrying `steps_used = max_steps`. -/
theorem C4_step_budget_and_exhaustion (P : SessionRunner) (env : Env) (cancel : Bool)
    (ut : String) (ds : List ToolDecision) :
    (SessionRunner.run P env cancel ut ds).step ≤ P.max_steps ∧
    (EnvOk env → cancel = false →
      (∀ n, ∃ st, env.agentStep n = .ok st ∧ st.pending_tools.getD [] = [] ∧
        st.final.getD "" = "") →
      (SessionRunner.run P env cancel ut ds).fail = none ∧
      (SessionRunner.run P env cancel ut ds).step = P.max_steps ∧
      (SessionRunner.run P env cancel ut ds).trace =
        startTrace P ut ++ noopTrace 0 P.max_steps ++
          [.statusWrite "completed", .storeEvent "run.completed",
           .published "run.completed" (.obj [("steps_used", .n P.max_steps)])]) := by
  constructor
  · exact run_step_le P env cancel ut ds
  · intro hok hc hagent
    subst hc
    have hbody := runBody_noop P env ut ds hok hagent
    have hbn : (runBody P env false ut ds).fail = none := by rw [hbody]
    rw [run_eq_body_of_fail_none hbn, hbody]
    exact ⟨rfl, rfl, rfl⟩

/-- Witness for C4 at a concrete run: all-succeeding environment, agent that
returns neither tools nor final, `max_steps = 1`. -/
theorem C4_witness :
    (EnvOk envAllOk ∧ (false : Bool) = false ∧
      (∀ n, ∃ st, envAllOk.agentStep n = .ok st ∧ st.pending_tools.getD [] = [] ∧
        st.final.getD "" = "")) ∧
    ((SessionRunner.run P5c envAllOk false "hi" []).fail = none ∧
     (SessionRunner.run P5c envAllOk false "hi" []).step = P5c.max_steps ∧
     (SessionRunner.run P5c envAllOk false "hi" []).trace =
       startTrace P5c "hi" ++ noopTrace 0 P5c.max_steps ++
         [.statusWrite "completed", .storeEvent "run.completed",
          .published "run.completed" (.obj [("steps_used", .n P5c.max_steps)])]) :=
  ⟨⟨⟨fun _ => rfl, fun _ _ => rfl, fun _ => rfl, fun _ => rfl⟩, rfl,
    fun _ => ⟨{ messages := [] }, rfl, rfl, rfl⟩⟩,
   (C4_step_budget_and_exhaustion P5c envAllOk false "hi" []).2
     ⟨fun _ => rfl, fun _ _ => rfl, fun _ => rfl, fun _ => rfl⟩ rfl
     (fun _ => ⟨{ messages := [] }, rfl, rfl, rfl⟩)⟩

/-! ## C8 -/

theorem azureCollect_error_not_mem {ids : Nat → String} {l : List String} {nm : String} :
    ∀ (tcs : List (String × Args)) (i : Nat),
    azureCollect (some l) ids i tcs = .error nm → ¬ nm ∈ l := by
  intro tcs
  induction tcs with
  | nil => intro i h; simp [azureCollect] at h
  | cons tc rest ih =>
    obtain ⟨nm2, args2⟩ := tc
    intro i h
    simp only [azureCollect] at h
    split at h
    · rename_i hcond
      cases h
      exact hcond.2
    · cases hx : azureCollect (some l) ids (i + 1) rest with
      | error m =>
        rw [hx] at h
        simp only [Except.map] at h
        cases h
        exact ih (i + 1) hx
      | ok ps =>
        rw [hx] at h
        simp [Except.map] at h

theorem run_agent_once_disallowed (ac : AzureCfg) (tcs : List (String × Args))
    (ids : Nat → String) (ut cwd2 : String) (l : List String) (nm : String)
    (hcol : azureCollect (some l) ids 0 tcs = .error nm) :
    run_agent_once (some ac) (.ok (.toolCalls tcs)) ids ut cwd2 (some l) =
      { messages := [("user", ut)], pending_tools := none,
        final := some (disallowedMsg nm l) } := by
  simp [run_agent_once, hcol]

theorem loopGo_final_first (env : Env) (reg : ToolRegistry) (cwd : String) (auto : Bool)
    (fuel : Nat) (pending : List (String × ToolCall)) (ds : List ToolDecision)
    (hok : EnvOk env) (st : AgentState) (msg : String)
    (hst : env.agentStep 1 = .ok st) (hpt : st.pending_tools.getD [] = [])
    (hfin : st.final = some msg) (hne : msg.isEmpty = false) :
    loopGo env reg cwd auto false (fuel + 1) 0 pending ds =
      ⟨[.storeEvent "run.step.started",
        .published "run.step.started" (.obj [("step", .n 1)]),
        .storeMessage "assistant" msg, .storeEvent "assistant.final",
        .published "assistant.final" (.obj [("text", .s msg), ("step", .n 1)])],
       none, pending, ds, 1⟩ := by
  have hemit : emitE env "run.step.started" (.obj [("step", .n (0 + 1))]) =
      ([.storeEvent "run.step.started",
        .published "run.step.started" (.obj [("step", .n (0 + 1))])], none) := by
    simp [emitE, hok.2.2.1 _, hok.2.2.2 _]
  have he2 : eseq (addMsgE env "assistant" msg)
      (emitE env "assistant.final" (.obj [("text", .s msg), ("step", .n (0 + 1))])) =
      ([.storeMessage "assistant" msg, .storeEvent "assistant.final",
        .published "assistant.final" (.obj [("text", .s msg), ("step", .n (0 + 1))])], none) := by
    simp [eseq, addMsgE, emitE, hok.2.1 _ _, hok.2.2.1 _, hok.2.2.2 _]
  have hst1 : env.agentStep (0 + 1) = .ok st := by simpa using hst
  simp only [loopGo, Bool.false_eq_true, if_false, hemit, hst1, hpt, List.isEmpty_nil,
    if_true, hfin, hne, he2]
  simp

theorem runBody_final_first (P : SessionRunner) (env : Env) (ut : String)
    (ds : List ToolDecision) (hok : EnvOk env) (st : AgentState) (msg : String)
    (hms : 0 < P.max_steps)
    (hst : env.agentStep 1 = .ok st) (hpt : st.pending_tools.getD [] = [])
    (hfin : st.final = some msg) (hne : msg.isEmpty = false) :
    runBody P env false ut ds =
      ⟨startTrace P ut ++
         [.storeEvent "run.step.started",
          .published "run.step.started" (.obj [("step", .n 1)]),
          .storeMessage "assistant" msg, .storeEvent "assistant.final",
          .published "assistant.final" (.obj [("text", .s msg), ("step", .n 1)]),
          .statusWrite "completed", .storeEvent "run.completed",
          .published "run.completed" (.obj [("steps_used", .n 1)])],
       none, [], ds, 1⟩ := by
  obtain ⟨m, hm⟩ : ∃ m, P.max_steps = m + 1 := ⟨P.max_steps - 1, by omega⟩
  have he1 : eseq (statE env "running") (emitE env "run.started" (runStartedData P)) =
      ([.statusWrite "running", .storeEvent "run.started",
        .published "run.started" (runStartedData P)], none) := by
    simp [eseq, statE, emitE, hok.1 _, hok.2.2.1 _, hok.2.2.2 _]
  have he2 : eseq (addMsgE env "user" ut)
      (emitE env "assistant.user_message" (.obj [("text", .s ut)])) =
      ([.storeMessage "user" ut, .storeEvent "assistant.user_message",
        .published "assistant.user_message" (.obj [("text", .s ut)])], none) := by
    simp [eseq, addMsgE, emitE, hok.2.1 _ _, hok.2.2.1 _, hok.2.2.2 _]
  have he3 : eseq (statE env "completed")
      (emitE env "run.completed" (.obj [("steps_used", .n 1)])) =
      ([.statusWrite "completed", .storeEvent "run.completed",
        .published "run.completed" (.obj [("steps_used", .n 1)])], none) := by
    simp [eseq, statE, emitE, hok.1 _, hok.2.2.1 _, hok.2.2.2 _]
  have hloop := loopGo_final_first env P.registry P.cwd P.auto_approve m [] ds hok st msg
    hst hpt hfin hne
  simp only [runBody, he1, he2, hm, hloop, Bool.false_eq_true, if_false, he3]
  simp [startTrace]

/-- C8 counterexample: with no LLM configured, the fallback path proposes
`read_file` even though the run's allow-list is `["write_file"]`; the run
does not short-circuit to a final message — it executes the proposal against
the filtered registry and emits one `tool.result` event (with `ok = false`,
`Unknown tool`), and no `assistant.final` at all.  This refutes the claim
for proposals produced by the fallback reasoning path. -/
theorem C8_counterexample :
    (run_agent_once none (.ok (.content "")) (fun _ => "u0") "read secret.txt" "/w"
        (some ["write_file"])).pending_tools =
      some [⟨"u0", "read_file", [("path", "secret.txt")]⟩] ∧
    ((SessionRunner.run P8c env8c false "read secret.txt" []).trace).countP
      (isPubOf "tool.result") = 1 ∧
    ((SessionRunner.run P8c env8c false "read secret.txt" []).trace).countP
      (isPubOf "assistant.final") = 0 ∧
    (SessionRunner.run P8c env8c false "read secret.txt" []).fail = none := by
  refine ⟨by rfl, by rfl, by rfl, by rfl⟩

/-- C8 (amended): the allow-list gate lives in the LLM tool-calling path of
the reasoning step.  Whenever that path proposes a batch containing a tool
name outside the run's configured non-empty `allowed_tools` list, the step
returns an immediate final assistant message naming the first disallowed
tool (and no tool proposals), and the run persists it, terminates as
`completed`, and never emits any `tool.result` for that proposal.  (The
regex fallback path used when no LLM is configured performs no such gating —
see the counterexample — so the claim is restricted to the LLM path.) -/
theorem C8_amended_llm_gate (P : SessionRunner) (env : Env) (ut cwd2 : String)
    (ds : List ToolDecision) (ac : AzureCfg) (ids : Nat → String)
    (tcs : List (String × Args)) (l : List String) (nm : String)
    (hok : EnvOk env) (hms : 0 < P.max_steps)
    (hcol : azureCollect (some l) ids 0 tcs = .error nm)
    (hst : env.agentStep 1 =
      .ok (run_agent_once (some ac) (.ok (.toolCalls tcs)) ids ut cwd2 (some l))) :
    ¬ nm ∈ l ∧
    run_agent_once (some ac) (.ok (.toolCalls tcs)) ids ut cwd2 (some l) =
      { messages := [("user", ut)], pending_tools := none,
        final := some (disallowedMsg nm l) } ∧
    SessionRunner.run P env false ut ds =
      ⟨startTrace P ut ++
         [.storeEvent "run.step.started",
          .published "run.step.started" (.obj [("step", .n 1)]),
          .storeMessage "assistant" (disallowedMsg nm l), .storeEvent "assistant.final",
          .published "assistant.final"
            (.obj [("text", .s (disallowedMsg nm l)), ("step", .n 1)]),
          .statusWrite "completed", .storeEvent "run.completed",
          .published "run.completed" (.obj [("steps_used", .n 1)])],
       none, [], ds, 1⟩ ∧
    ((SessionRunner.run P env false ut ds).trace).countP (isPubOf "tool.result") = 0 := by
  have hagent := run_agent_once_disallowed ac tcs ids ut cwd2 l nm hcol
  have hne : (disallowedMsg nm l).isEmpty = false := by
    rw [Bool.eq_false_iff]
    intro hcontra
    have h0 := (String.isEmpty_iff _).mp hcontra
    have hlen := congrArg String.length h0
    simp only [disallowedMsg, String.length_append] at hlen
    have h6 : ("Tool '" : String).length = 6 := rfl
    rw [h6] at hlen
    simp at hlen
  have hbody := runBody_final_first P env ut ds hok
    (run_agent_once (some ac) (.ok (.toolCalls tcs)) ids ut cwd2 (some l))
    (disallowedMsg nm l) hms hst (by rw [hagent]; rfl) (by rw [hagent]) hne
  have hbn : (runBody P env false ut ds).fail = none := by rw [hbody]
  have hrun : SessionRunner.run P env false ut ds = runBody P env false ut ds :=
    run_eq_body_of_fail_none hbn
  refine ⟨azureCollect_error_not_mem tcs 0 hcol, hagent, ?_, ?_⟩
  · rw [hrun, hbody]
  · rw [hrun, hbody]
    simp [startTrace, isPubOf]

/-- Witness for C8's amended theorem at a concrete run: the LLM path
proposes `write_file` against allow-list `["read_file"]`; the run ends
`completed` at step 1 with the disallowed-tool final message and no
`tool.result`. -/
theorem C8_amended_witness :
    (EnvOk env8w ∧ 0 < P8w.max_steps ∧
     azureCollect (some ["read_file"]) (fun _ => "u1") 0 [("write_file", [])] =
       .error "write_file" ∧
     env8w.agentStep 1 = .ok (run_agent_once (some ac8)
       (.ok (.toolCalls [("write_file", [])])) (fun _ => "u1") "hi" "/w"
       (some ["read_file"]))) ∧
    (¬ "write_file" ∈ ["read_file"] ∧
     run_agent_once (some ac8) (.ok (.toolCalls [("write_file", [])])) (fun _ => "u1")
         "hi" "/w" (some ["read_file"]) =
       { messages := [("user", "hi")], pending_tools := none,
         final := some (disallowedMsg "write_file" ["read_file"]) } ∧
     SessionRunner.run P8w env8w false "hi" [] =
       ⟨startTrace P8w "hi" ++
          [.storeEvent "run.step.started",
           .published "run.step.started" (.obj [("step", .n 1)]),
           .storeMessage "assistant" (disallowedMsg "write_file" ["read_file"]),
           .storeEvent "assistant.final",
           .published "assistant.final"
             (.obj [("text", .s (disallowedMsg "write_file" ["read_file"])), ("step", .n 1)]),
           .statusWrite "completed", .storeEvent "run.completed",
           .published "run.completed" (.obj [("steps_used", .n 1)])],
        none, [], [], 1⟩ ∧
     ((SessionRunner.run P8w env8w false "hi" []).trace).countP (isPubOf "tool.result") = 0) :=
  ⟨⟨⟨fun _ => rfl, fun _ _ => rfl, fun _ => rfl, fun _ => rfl⟩, by decide, rfl, rfl⟩,
   C8_amended_llm_gate P8w env8w "hi" "/w" [] ac8 (fun _ => "u1") [("write_file", [])]
     ["read_file"] "write_file" ⟨fun _ => rfl, fun _ _ => rfl, fun _ => rfl, fun _ => rfl⟩
     (by decide) rfl rfl⟩

/-! ## C6 -/

theorem dictGet_dictPop (m : List (String × ToolCall)) (k : String) :
    dictGet (dictPop m k) k = none := by
  rw [dictGet, Option.map_eq_none', List.find?_eq_none]
  intro p hp
  have h2 := List.of_mem_filter hp
  simp only [decide_eq_true_eq] at h2 ⊢
  exact h2

theorem dictGet_none_of_sublist {l1 l2 : List (String × ToolCall)} (h : l1.Sublist l2)
    {k : String} (h2 : dictGet l2 k = none) : dictGet l1 k = none := by
  rw [dictGet, Option.map_eq_none', List.find?_eq_none] at h2 ⊢
  intro x hx
  exact h2 x (h.subset hx)

theorem decisionsGo_pending_sublist (env : Env) (reg : ToolRegistry) (cwd : String)
    (cancel : Bool) : ∀ (ds : List ToolDecision) (pending : List (String × ToolCall)),
    ((decisionsGo env reg cwd cancel ds pending).pending).Sublist pending := by
  intro ds
  induction ds with
  | nil =>
    intro pending
    by_cases hc : (pending.isEmpty || cancel) = true
    · rw [decisionsGo_exit hc]
    · rw [decisionsGo_blocked (by simpa using hc)]
  | cons d rest ih =>
    intro pending
    by_cases hc : (pending.isEmpty || cancel) = true
    · rw [decisionsGo_exit hc]
    · have hc2 : (pending.isEmpty || cancel) = false := by simpa using hc
      cases hget : dictGet pending d.call_id with
      | none =>
        rw [decisionsGo_skip hc2 hget]
        exact ih pending
      | some call =>
        cases her : (decisionEffects env reg cwd call d).2 with
        | some f => rw [decisionsGo_hit_fail hc2 hget her]
        | none =>
          rw [decisionsGo_hit_ok hc2 hget her]
          exact (ih (dictPop pending call.id)).trans (List.filter_sublist pending)

/-- C6 counterexample: in an auto-approve run the proposed call `c1` is
executed (exactly one `tool.result` is published) and the run completes
normally, yet `c1` is still present in the pending map when `run()` returns
— resolution by auto-approval-and-execution never removes it, refuting
"after resolution it is removed". -/
theorem C6_counterexample :
    ((SessionRunner.run P6c env6c false "hi" []).trace).countP (isPubOf "tool.result") = 1 ∧
    (SessionRunner.run P6c env6c false "hi" []).fail = none ∧
    dictGet (SessionRunner.run P6c env6c false "hi" []).pending "c1" =
      some ⟨"c1", "echo", [("text", "hi")]⟩ := by
  refine ⟨by rfl, by rfl, by rfl⟩

/-- C6 (amended): in the manual-approval decision loop the claimed lifecycle
holds — (a) handling decisions never adds entries to `pending` (its final
value is a sublist of its initial value, so an id absent before stays absent:
nothing re-enters); (b) a decision whose call id is not in `pending`
(unknown, or already resolved) is skipped with no effect at all; (c) a
decision that resolves a present call removes that call's id from `pending`
for good (when its approve/reject effects succeed).  In the auto-approve
path, however, executed calls stay registered in `pending` after execution
and are never removed for the rest of the run (see the counterexample). -/
theorem C6_amended_pending_lifecycle (env : Env) (reg : ToolRegistry) (cwd : String)
    (cancel : Bool) :
    (∀ (ds : List ToolDecision) (pending : List (String × ToolCall)),
      ((decisionsGo env reg cwd cancel ds pending).pending).Sublist pending) ∧
    (∀ (d : ToolDecision) (rest : List ToolDecision) (pending : List (String × ToolCall)),
      (pending.isEmpty || cancel) = false →
      dictGet pending d.call_id = none →
      decisionsGo env reg cwd cancel (d :: rest) pending =
        decisionsGo env reg cwd cancel rest pending) ∧
    (∀ (d : ToolDecision) (rest : List ToolDecision) (pending : List (String × ToolCall))
       (call : ToolCall),
      (pending.isEmpty || cancel) = false →
      dictGet pending d.call_id = some call →
      (decisionEffects env reg cwd call d).2 = none →
      dictGet (decisionsGo env reg cwd cancel (d :: rest) pending).pending call.id = none) := by
  refine ⟨decisionsGo_pending_sublist env reg cwd cancel, ?_, ?_⟩
  · intro d rest pending hc2 hget
    exact decisionsGo_skip hc2 hget
  · intro d rest pending call hc2 hget her
    rw [decisionsGo_hit_ok hc2 hget her]
    exact dictGet_none_of_sublist
      (decisionsGo_pending_sublist env reg cwd cancel rest (dictPop pending call.id))
      (dictGet_dictPop pending call.id)

/-- Witness for C6's amended theorem at concrete inputs: an approval decision
for the pending call `c1` removes it permanently; a decision for the unknown
id `zz` is a no-op. -/
theorem C6_amended_witness :
    ((([("c1", call6)] : List (String × ToolCall)).isEmpty || false) = false ∧
     dictGet [("c1", call6)] "c1" = some call6 ∧
     (decisionEffects envAllOk reg6 "/w" call6 ⟨"c1", "approve", none⟩).2 = none ∧
     dictGet [("c1", call6)] "zz" = none) ∧
    (dictGet (decisionsGo envAllOk reg6 "/w" false [⟨"c1", "approve", none⟩]
        [("c1", call6)]).pending call6.id = none ∧
     decisionsGo envAllOk reg6 "/w" false (⟨"zz", "approve", none⟩ :: [])
         [("c1", call6)] =
       decisionsGo envAllOk reg6 "/w" false [] [("c1", call6)]) :=
  ⟨⟨rfl, rfl, rfl, rfl⟩,
   ⟨(C6_amended_pending_lifecycle envAllOk reg6 "/w" false).2.2 ⟨"c1", "approve", none⟩ []
      [("c1", call6)] call6 rfl rfl rfl,
    (C6_amended_pending_lifecycle envAllOk reg6 "/w" false).2.1 ⟨"zz", "approve", none⟩ []
      [("c1", call6)] rfl rfl⟩⟩
